import Mathlib

/-!
Verification of the unified_hunt_toolkit streaming pipeline.

The development embeds, as executable Lean functions over `List Char`
and list-modelled Python dictionaries, the core of the repository:

* the incremental JSON-array decoder `iter_systems_with_coords_gz`,
  duplicated in `scripts/join_star_type_to_coords.py` (namespace
  `JoinScript`) and `scripts/build_gravity_sources.py` (namespace
  `GravScript`);
* the multi-key join resolver of `join_star_type_to_coords.py`
  (`load_primary_maps` and the probe in `main`);
* `system_key` and the build loop of `extract_primary_star_and_grav.py`;
* the capped scanning loop of `build_gravity_sources.main`;
* `normalize_row` and the build loop of `build_omphalos_systems.py`.

A reference whole-document JSON recognizer (`refDocParse`) provides the
independent notion of a well-formed `[ obj, obj, ... ]` document against
which the hand-rolled boundary scanner is compared.
-/

set_option maxHeartbeats 1000000

namespace UnifiedHunt

/-- ASCII fragment of Python `str.isspace`, used by the decoders when they
skip leading whitespace before the opening bracket. -/
def pyIsSpace (c : Char) : Bool :=
  c = ' ' || c = '\t' || c = '\n' || c = '\r' || c = '\x0b' || c = '\x0c'

/-- JSON whitespace (RFC 8259), used by the reference document parser. -/
def jIsWs (c : Char) : Bool :=
  c = ' ' || c = '\t' || c = '\n' || c = '\r'

/-- State of the hand-rolled boundary scanner: the mutable variables
`depth`, `in_str`, `esc` of the source loops. -/
structure SMState where
  depth : Int
  in_str : Bool
  esc : Bool
deriving DecidableEq

/-- Errors raised by `iter_systems_with_coords_gz` (`ValueError`s in the
source; the two script copies differ only in the wording of the
`notArray` message, so the message text is not modelled). -/
inductive DecErr where
  | notArray (got : Option Char)
  | expectedBrace
  | eofMidObject
deriving DecidableEq

/-- Control position inside the streaming loop: scanning for the first
`{` or `]` after the opening bracket, scanning for the next `{` or `]`
after a yield, or accumulating an object into `buf`. -/
inductive Mode where
  | seekFirst
  | seekNext
  | inObject (buf : List Char) (st : SMState)

namespace JoinScript

/-- One iteration of the character loop of
`join_star_type_to_coords.iter_systems_with_coords_gz` (lines 63-76):
the `if in_str: ... else: ...` update of `(depth, in_str, esc)`. -/
def stepDec (st : SMState) (c : Char) : SMState :=
  if st.in_str then
    if st.esc then { st with esc := false }
    else if c = '\\' then { st with esc := true }
    else if c = '"' then { st with in_str := false }
    else st
  else
    if c = '"' then { st with in_str := true }
    else if c = '{' then { st with depth := st.depth + 1 }
    else if c = '}' then { st with depth := st.depth - 1 }
    else st

/-- The streaming loop of `iter_systems_with_coords_gz` after the opening
`[` has been consumed.  It returns the list of yielded object substrings
(the source yields `json.loads("".join(buf))`; the spec licenses the
lower-level substring variant) together with the error, if any, that
ends the generator.  Yields made before an error are kept, matching
generator semantics. -/
def runDec : Mode → List Char → List (List Char) × Option DecErr
  | .seekFirst, [] => ([], some .expectedBrace)
  | .seekFirst, c :: cs =>
    if c = ']' then ([], none)
    else if c = '{' then runDec (.inObject ['{'] ⟨1, false, false⟩) cs
    else runDec .seekFirst cs
  | .seekNext, [] => ([], none)
  | .seekNext, c :: cs =>
    if c = ']' then ([], none)
    else if c = '{' then runDec (.inObject ['{'] ⟨1, false, false⟩) cs
    else runDec .seekNext cs
  | .inObject _ _, [] => ([], some .eofMidObject)
  | .inObject buf st, c :: cs =>
    let buf' := buf ++ [c]
    let st' := stepDec st c
    if st.in_str = false ∧ c = '}' ∧ st'.depth = 0 then
      let r := runDec .seekNext cs
      (buf' :: r.1, r.2)
    else runDec (.inObject buf' st') cs

/-- `iter_systems_with_coords_gz` on a decompressed character stream:
skip whitespace, require `[`, then run the streaming loop. -/
def iterObjs (input : List Char) : List (List Char) × Option DecErr :=
  match input.dropWhile pyIsSpace with
  | [] => ([], some (.notArray none))
  | c :: cs =>
    if c = '[' then runDec .seekFirst cs
    else ([], some (.notArray (some c)))

end JoinScript

namespace GravScript

/-- One iteration of the character loop of
`build_gravity_sources.iter_systems_with_coords_gz` (lines 47-60). -/
def stepDec (st : SMState) (c : Char) : SMState :=
  if st.in_str then
    if st.esc then { st with esc := false }
    else if c = '\\' then { st with esc := true }
    else if c = '"' then { st with in_str := false }
    else st
  else
    if c = '"' then { st with in_str := true }
    else if c = '{' then { st with depth := st.depth + 1 }
    else if c = '}' then { st with depth := st.depth - 1 }
    else st

/-- The streaming loop of `build_gravity_sources.iter_systems_with_coords_gz`
after the opening `[` has been consumed. -/
def runDec : Mode → List Char → List (List Char) × Option DecErr
  | .seekFirst, [] => ([], some .expectedBrace)
  | .seekFirst, c :: cs =>
    if c = ']' then ([], none)
    else if c = '{' then runDec (.inObject ['{'] ⟨1, false, false⟩) cs
    else runDec .seekFirst cs
  | .seekNext, [] => ([], none)
  | .seekNext, c :: cs =>
    if c = ']' then ([], none)
    else if c = '{' then runDec (.inObject ['{'] ⟨1, false, false⟩) cs
    else runDec .seekNext cs
  | .inObject _ _, [] => ([], some .eofMidObject)
  | .inObject buf st, c :: cs =>
    let buf' := buf ++ [c]
    let st' := stepDec st c
    if st.in_str = false ∧ c = '}' ∧ st'.depth = 0 then
      let r := runDec .seekNext cs
      (buf' :: r.1, r.2)
    else runDec (.inObject buf' st') cs

/-- `build_gravity_sources.iter_systems_with_coords_gz` on a decompressed
character stream. -/
def iterObjs (input : List Char) : List (List Char) × Option DecErr :=
  match input.dropWhile pyIsSpace with
  | [] => ([], some (.notArray none))
  | c :: cs =>
    if c = '[' then runDec .seekFirst cs
    else ([], some (.notArray (some c)))

end GravScript

/-! ### The inert-content grammar

Characters between an object's braces that the scanner treats as inert:
a sound over-approximation grammar of JSON object interiors, used to
relate the scanner to the reference parser. -/

/-- Valid interior of a JSON string literal as the scanner sees it: a
backslash always escapes exactly the next character, and an unescaped
`"` terminates (so it cannot occur in the body). -/
inductive IsStrBody : List Char → Prop
  | nil : IsStrBody []
  | esc (c : Char) (rest : List Char) : IsStrBody rest →
      IsStrBody ('\\' :: c :: rest)
  | chr (c : Char) (rest : List Char) : c ≠ '"' → c ≠ '\\' →
      IsStrBody rest → IsStrBody (c :: rest)

/-- Character sequences that bring the scanner's `(depth, in_str, esc)`
state back to where it started: plain characters other than `"`, `{`,
`}`; complete string literals; complete balanced objects. -/
inductive Inert : List Char → Prop
  | nil : Inert []
  | chr (c : Char) (rest : List Char) :
      c ≠ '"' → c ≠ '{' → c ≠ '}' → Inert rest → Inert (c :: rest)
  | str (body rest : List Char) : IsStrBody body → Inert rest →
      Inert ('"' :: body ++ '"' :: rest)
  | obj (inner rest : List Char) : Inert inner → Inert rest →
      Inert ('{' :: inner ++ '}' :: rest)

/-! ### Reference whole-document JSON recognizer

An independent recursive-descent recognizer for one top-level JSON array
of values, returning the exact source text of each top-level element.
It plays the role of the reference whole-document `json.loads`: two
element texts that agree character-for-character parse to structurally
equal values under any JSON parser. -/

/-- Characters that may occur in an unquoted JSON scalar token (numbers
and the `null` / `true` / `false` literals); maximal-munch lexing. -/
def atomChar (c : Char) : Bool :=
  c.isDigit || c.isAlpha || c = '-' || c = '+' || c = '.'

/-- Recognize the rest of a JSON string literal after the opening quote:
returns the raw body (escapes kept) and the input after the closing
quote. -/
def scanStr (l : List Char) : Option (List Char × List Char) :=
  match l with
  | [] => none
  | c :: cs =>
    if c = '"' then some ([], cs)
    else if c = '\\' then
      match cs with
      | [] => none
      | d :: cs' => (scanStr cs').map fun p => (c :: d :: p.1, p.2)
    else (scanStr cs).map fun p => (c :: p.1, p.2)
termination_by l.length
decreasing_by
  all_goals simp_all
  omega

mutual

/-- Recognize one JSON value starting at the first character of `cs`
(no leading whitespace); returns its exact text and the rest. -/
def scanVal : Nat → List Char → Option (List Char × List Char)
  | 0, _ => none
  | fuel + 1, cs =>
    match cs with
    | [] => none
    | c :: cs' =>
      if c = '"' then (scanStr cs').map fun p => ('"' :: p.1 ++ ['"'], p.2)
      else if c = '{' then (scanObjBody fuel cs').map fun p => ('{' :: p.1, p.2)
      else if c = '[' then (scanArrBody fuel cs').map fun p => ('[' :: p.1, p.2)
      else
        let t := cs.takeWhile atomChar
        if t = [] then none else some (t, cs.dropWhile atomChar)

/-- After an object's `{`: whitespace, then `}` (empty object) or the
first member.  Returns the text up to and including the closing `}`. -/
def scanObjBody : Nat → List Char → Option (List Char × List Char)
  | 0, _ => none
  | fuel + 1, cs =>
    match cs.dropWhile jIsWs with
    | [] => none
    | c :: r =>
      if c = '}' then some (cs.takeWhile jIsWs ++ ['}'], r)
      else if c = '"' then
        (scanMember fuel r).map fun p => (cs.takeWhile jIsWs ++ '"' :: p.1, p.2)
      else none

/-- At the body of a member's key string (after its opening quote):
key, `:`, value, then either `}` (text through `}` returned) or `,` and
the next member. -/
def scanMember : Nat → List Char → Option (List Char × List Char)
  | 0, _ => none
  | fuel + 1, cs =>
    match scanStr cs with
    | none => none
    | some (kb, r1) =>
      match r1.dropWhile jIsWs with
      | [] => none
      | c :: r2 =>
        if c = ':' then
          match scanVal fuel (r2.dropWhile jIsWs) with
          | none => none
          | some (vt, r3) =>
            match r3.dropWhile jIsWs with
            | [] => none
            | c2 :: r4 =>
              if c2 = '}' then
                some (kb ++ '"' :: r1.takeWhile jIsWs ++ ':' :: r2.takeWhile jIsWs ++
                  vt ++ r3.takeWhile jIsWs ++ ['}'], r4)
              else if c2 = ',' then
                match r4.dropWhile jIsWs with
                | [] => none
                | c3 :: r5 =>
                  if c3 = '"' then
                    (scanMember fuel r5).map fun p =>
                      (kb ++ '"' :: r1.takeWhile jIsWs ++ ':' :: r2.takeWhile jIsWs ++
                        vt ++ r3.takeWhile jIsWs ++ ',' :: r4.takeWhile jIsWs ++
                        '"' :: p.1, p.2)
                  else none
              else none
        else none

/-- After an array's `[`: whitespace, then `]` (empty array) or the
first element.  Returns the text up to and including the closing `]`. -/
def scanArrBody : Nat → List Char → Option (List Char × List Char)
  | 0, _ => none
  | fuel + 1, cs =>
    match cs.dropWhile jIsWs with
    | [] => none
    | c :: r =>
      if c = ']' then some (cs.takeWhile jIsWs ++ [']'], r)
      else
        (scanElem fuel (c :: r)).map fun p => (cs.takeWhile jIsWs ++ p.1, p.2)

/-- At the first character of an array element: value, then either `]`
(text through `]` returned) or `,` and the next element. -/
def scanElem : Nat → List Char → Option (List Char × List Char)
  | 0, _ => none
  | fuel + 1, cs =>
    match scanVal fuel cs with
    | none => none
    | some (vt, r1) =>
      match r1.dropWhile jIsWs with
      | [] => none
      | c :: r2 =>
        if c = ']' then some (vt ++ r1.takeWhile jIsWs ++ [']'], r2)
        else if c = ',' then
          (scanElem fuel (r2.dropWhile jIsWs)).map fun p =>
            (vt ++ r1.takeWhile jIsWs ++ ',' :: r2.takeWhile jIsWs ++ p.1, p.2)
        else none

end

/-- Top-level element loop of the reference document parse: at the first
character of an element, collect the exact text of every element of the
array, returning the texts and the input after the closing `]`. -/
def refDocElems : Nat → List Char → Option (List (List Char) × List Char)
  | 0, _ => none
  | fuel + 1, cs =>
    match scanVal fuel cs with
    | none => none
    | some (t, r1) =>
      match r1.dropWhile jIsWs with
      | [] => none
      | c :: r2 =>
        if c = ']' then some ([t], r2)
        else if c = ',' then
          (refDocElems fuel (r2.dropWhile jIsWs)).map fun p => (t :: p.1, p.2)
        else none

/-- Reference whole-document parse: whitespace, `[`, the elements,
`]`, trailing whitespace only.  Returns the exact text of each
top-level element (in order); `none` on any malformed document. -/
def refDocParse (input : List Char) : Option (List (List Char)) :=
  match input.dropWhile jIsWs with
  | [] => none
  | c :: r =>
    if c = '[' then
      match r.dropWhile jIsWs with
      | [] => none
      | c2 :: r2 =>
        if c2 = ']' then (if r2.dropWhile jIsWs = [] then some [] else none)
        else
          match refDocElems (input.length + 1) (r.dropWhile jIsWs) with
          | none => none
          | some (es, tr) => if tr.dropWhile jIsWs = [] then some es else none
    else none


/-! ### Truncated documents (claim C3) -/

/-- Tail of a document whose final object is truncated before its
closing brace: zero or more complete objects (each preceded by
separator characters), then a final `{` and interior with no closing
`}` before end of input. -/
inductive TruncTail where
  | last (sep inner : List Char)
  | cons (sep inner : List Char) (t : TruncTail)

/-- The character stream after the opening `[` of a truncated document. -/
def renderTail : TruncTail → List Char
  | .last sep inner => sep ++ '{' :: inner
  | .cons sep inner t => sep ++ '{' :: (inner ++ '}' :: renderTail t)

/-- The complete objects of a truncated document, in order. -/
def tailYields : TruncTail → List (List Char)
  | .last _ _ => []
  | .cons _ inner t => ('{' :: inner ++ ['}']) :: tailYields t

/-- Well-formedness: separators contain no `{` or `]`, and all object
interiors (including the truncated one) are inert-complete. -/
def TailWf : TruncTail → Prop
  | .last sep inner => (∀ c ∈ sep, c ≠ '{' ∧ c ≠ ']') ∧ Inert inner
  | .cons sep inner t =>
      (∀ c ∈ sep, c ≠ '{' ∧ c ≠ ']') ∧ Inert inner ∧ TailWf t


/-! ### Python value model

Decoded JSON values and CSV fields as the scripts see them.  Python's
`str()` of list/dict values is approximated by a non-numeric placeholder
(the only property the scripts rely on is that such text parses as
neither `int` nor `float`, which holds for the real renderings too since
they contain brackets); `str()` of a non-integral float is likewise
approximated.  No claim depends on those renderings. -/

inductive PyVal where
  | vNull
  | vBool (b : Bool)
  | vInt (n : Int)
  | vFloat (q : ℚ)
  | vStr (s : String)
  | vList (l : List PyVal)
  | vDict (kvs : List (String × PyVal))

/-- A decoded JSON object (Python dict with string keys). -/
def PyDict := List (String × PyVal)

/-- Python truthiness. -/
def pyTruthy : PyVal → Bool
  | .vNull => false
  | .vBool b => b
  | .vInt n => decide (n ≠ 0)
  | .vFloat q => decide (q ≠ 0)
  | .vStr s => decide (s ≠ "")
  | .vList l => !l.isEmpty
  | .vDict kvs => !kvs.isEmpty

/-- Python `str.strip()` (ASCII-whitespace core), computed on the
character list so that it evaluates definitionally. -/
def pyStrip (s : String) : String :=
  String.mk (((s.toList.dropWhile Char.isWhitespace).reverse.dropWhile
    Char.isWhitespace).reverse)

/-- `s.startswith(pre)`, computed on the character lists. -/
def strStartsWith (s pre : String) : Bool :=
  pre.toList.isPrefixOf s.toList

/-- Rendering of a float by `str()`: exact for integral values, a
placeholder fraction otherwise (see section comment). -/
def floatStr (q : ℚ) : String :=
  if q.den = 1 then toString q.num ++ ".0"
  else toString q.num ++ "/" ++ toString q.den

/-- Python `str()`. -/
def pyStr : PyVal → String
  | .vNull => "None"
  | .vBool true => "True"
  | .vBool false => "False"
  | .vInt n => toString n
  | .vFloat q => floatStr q
  | .vStr s => s
  | .vList _ => "[list]"
  | .vDict _ => "dict"

/-- Value of a run of decimal digits. -/
def digitsNat (ds : List Char) : Nat :=
  ds.foldl (fun a c => a * 10 + (c.toNat - '0'.toNat)) 0

/-- Python `int(s)` on a stripped string: optional sign then decimal
digits (the ASCII-decimal core of the literal syntax). -/
def parseIntStr (s : String) : Option Int :=
  let core : List Char → Option Int := fun ds =>
    if ds ≠ [] ∧ ds.all Char.isDigit then some (digitsNat ds : Int) else none
  match s.toList with
  | '+' :: ds => core ds
  | '-' :: ds => (core ds).map Neg.neg
  | ds => core ds

/-- Exponent suffix of a float literal: empty, or `e`/`E` with optional
sign and digits. -/
def parseExpSuffix (cs : List Char) : Option Int :=
  match cs with
  | [] => some 0
  | c :: r =>
    if c = 'e' ∨ c = 'E' then
      match r with
      | '+' :: ds => if ds ≠ [] ∧ ds.all Char.isDigit then some (digitsNat ds : Int) else none
      | '-' :: ds => if ds ≠ [] ∧ ds.all Char.isDigit then some (-(digitsNat ds : Int)) else none
      | ds => if ds ≠ [] ∧ ds.all Char.isDigit then some (digitsNat ds : Int) else none
    else none

/-- Python `float(s)` on a stripped string (ASCII-decimal core:
`[+-] digits [. digits] [eE [+-] digits]`, at least one mantissa
digit). -/
def parseFloatStr (s : String) : Option ℚ :=
  let mant : List Char → Option ℚ := fun cs =>
    let ip := cs.takeWhile Char.isDigit
    let rest1 := cs.dropWhile Char.isDigit
    match rest1 with
    | '.' :: r2 =>
      let fp := r2.takeWhile Char.isDigit
      let rest2 := r2.dropWhile Char.isDigit
      if ip = [] ∧ fp = [] then none
      else (parseExpSuffix rest2).map fun e =>
        ((digitsNat (ip ++ fp) : ℚ) / (10 : ℚ) ^ fp.length) * (10 : ℚ) ^ e
    | rest =>
      if ip = [] then none
      else (parseExpSuffix rest).map fun e => (digitsNat ip : ℚ) * (10 : ℚ) ^ e
  match s.toList with
  | '+' :: cs => mant cs
  | '-' :: cs => (mant cs).map Neg.neg
  | cs => mant cs

/-- Python `int(float)`: truncation toward zero. -/
def ratTrunc (q : ℚ) : Int :=
  if q < 0 then -((-q).floor) else q.floor

/-- Python `float(v)` on a value (`TypeError`/`ValueError` as `none`;
every call site catches those). -/
def floatVal : PyVal → Option ℚ
  | .vNull => none
  | .vBool b => some (if b then 1 else 0)
  | .vInt n => some (n : ℚ)
  | .vFloat q => some q
  | .vStr s => parseFloatStr (pyStrip s)
  | .vList _ => none
  | .vDict _ => none

/-- `float(x)` where `x` may be the `None` of a missing `dict.get`. -/
def pyFloat (x : Option PyVal) : Option ℚ :=
  match x with
  | none => none
  | some v => floatVal v

/-- Association-list lookup (`dict.get`, `None` when absent). -/
def dget {κ β : Type} [BEq κ] (m : List (κ × β)) (k : κ) : Option β :=
  (m.find? fun p => p.1 == k).map Prod.snd

/-- Association-list store (`d[k] = v`). -/
def dset {κ β : Type} [BEq κ] (m : List (κ × β)) (k : κ) (v : β) :
    List (κ × β) :=
  if m.any fun p => p.1 == k then
    m.map fun p => if p.1 == k then (k, v) else p
  else m ++ [(k, v)]

/-- `rec.get(k)` on a decoded object. -/
def pyGet (rec : PyDict) (k : String) : Option PyVal := dget rec k

/-- `x or default` for a possibly missing value. -/
def pyOr (x : Option PyVal) (d : PyVal) : PyVal :=
  match x with
  | none => d
  | some v => if pyTruthy v then v else d

/-- A Python dict used as a lookup table, modelled as a function
(update = `dupd`). -/
def dupd {κ β : Type} [DecidableEq κ] (m : κ → Option β) (k : κ) (v : β) :
    κ → Option β :=
  fun q => if q = k then some v else m q

/-- The dict value, when the value is a dict; `.get` on anything else
raises `AttributeError`. -/
def dictOf : PyVal → Option PyDict
  | .vDict kvs => some kvs
  | _ => none

/-- Errors the scripts can raise past their local handlers. -/
inductive PyErr where
  | attributeError
deriving DecidableEq

/-! ### join_star_type_to_coords.py: load_primary_maps and the probe -/

namespace JoinStar

/-- `norm_name` (line 10): `("" if s is None else str(s)).strip()`. -/
def norm_name (x : Option PyVal) : String :=
  match x with
  | none => ""
  | some .vNull => ""
  | some v => pyStrip (pyStr v)

/-- `safe_int` (lines 14-26): `None` for `None`, else `int(str(x).strip())`,
falling back to `int(float(...))`, else `None`. -/
def safe_int (x : Option PyVal) : Option Int :=
  match x with
  | none => none
  | some .vNull => none
  | some v =>
    let s := pyStrip (pyStr v)
    if s = "" then none
    else
      match parseIntStr s with
      | some n => some n
      | none => (parseFloatStr s).map ratTrunc

/-- A CSV row from `csv.DictReader`: string fields. -/
def Row := List (String × String)

/-- `row.get(k)` on a CSV row, fed to `safe_int` / `norm_name` (fields
are strings when present). -/
def csvGet (row : Row) (k : String) : Option PyVal :=
  (dget row k).map PyVal.vStr

/-- The three lookup tables built by `load_primary_maps`. -/
structure Maps where
  by_id : Int → Option Row
  by_id64 : Int → Option Row
  by_name : String → Option Row

/-- Loop body of `load_primary_maps` (lines 114-125) for one CSV row:
insert the row under its parsed `systemId`, `systemId64` and non-empty
`systemName` (plain dict stores, later rows overwrite). -/
def load_step (m : Maps) (row : Row) : Maps :=
  let sid := safe_int (csvGet row "systemId")
  let sid64 := safe_int (csvGet row "systemId64")
  let nm := norm_name (csvGet row "systemName")
  let m1 := match sid with
    | some i => { m with by_id := dupd m.by_id i row }
    | none => m
  let m2 := match sid64 with
    | some i => { m1 with by_id64 := dupd m1.by_id64 i row }
    | none => m1
  if nm ≠ "" then { m2 with by_name := dupd m2.by_name nm row } else m2

/-- `load_primary_maps` (lines 94-129): one pass over the CSV rows. -/
def load_primary_maps (rows : List Row) : Maps :=
  rows.foldl load_step ⟨fun _ => none, fun _ => none, fun _ => none⟩

/-- Which counter the probe increments on a hit. -/
inductive Via where
  | vId
  | vId64
  | vName
deriving DecidableEq

/-- The probe of `main` (lines 172-194): `if sid is not None and sid in
by_id: ... elif sid64 is not None and sid64 in by_id64: ... else:
nm = norm_name(name); if nm and nm in by_name: ...`. -/
def probePrimary (m : Maps) (sysrec : PyDict) : Option (Row × Via) :=
  let sid := safe_int (pyGet sysrec "id")
  let sid64 := safe_int (pyGet sysrec "id64")
  match sid.bind m.by_id with
  | some prow => some (prow, .vId)
  | none =>
    match sid64.bind m.by_id64 with
    | some prow => some (prow, .vId64)
    | none =>
      let nm := norm_name (pyGet sysrec "name")
      if nm ≠ "" then (m.by_name nm).map fun prow => (prow, .vName)
      else none

end JoinStar

/-! ### extract_primary_star_and_grav.py: system_key and the build loop -/

namespace Extract

/-- `norm` (line 33). -/
def norm (x : Option PyVal) : String :=
  match x with
  | none => ""
  | some .vNull => ""
  | some v => pyStrip (pyStr v)

/-- `as_int` (lines 18-30), same algorithm as `safe_int` of the join
script. -/
def as_int (x : Option PyVal) : Option Int :=
  match x with
  | none => none
  | some .vNull => none
  | some v =>
    let s := pyStrip (pyStr v)
    if s = "" then none
    else
      match parseIntStr s with
      | some n => some n
      | none => (parseFloatStr s).map ratTrunc

/-- `as_float` (lines 11-15): builtin `float(x)` with every failure
recovered as `None`. -/
def as_float (x : Option PyVal) : Option ℚ :=
  match x with
  | none => none
  | some v => floatVal v

/-- The `Hashable` part of the key tuple. -/
inductive KV where
  | kInt (n : Int)
  | kStr (s : String)
deriving DecidableEq

/-- `system_key` (lines 37-57): systemId, else systemId64, else
non-empty systemName, else the `("none", "")` tag. -/
def system_key (rec : PyDict) : String × KV :=
  match as_int (pyGet rec "systemId") with
  | some sid => ("id", .kInt sid)
  | none =>
    match as_int (pyGet rec "systemId64") with
    | some sid64 => ("id64", .kInt sid64)
    | none =>
      let name := norm (pyGet rec "systemName")
      if name ≠ "" then ("name", .kStr name) else ("none", .kStr "")

/-- `is_interesting_grav` (lines 60-76). -/
def is_interesting_grav (subtype : String) : Bool :=
  let st := pyStrip subtype
  if st = "" then false
  else if st = "Black Hole" then true
  else if st = "Neutron Star" then true
  else strStartsWith st "White Dwarf"

/-- `choose_primary` (lines 79-113): prefer `isMainStar`, then smallest
`distanceToArrival` (missing distance counts as `1e30`); the kept copy
carries `_is_main` and `_d`. -/
def choose_primary (existing : Option PyDict) (rec : PyDict) : PyDict :=
  let is_main := match pyGet rec "isMainStar" with
    | none => false
    | some .vNull => false
    | some v => pyTruthy v
  let d := match as_float (pyGet rec "distanceToArrival") with
    | none => (10 : ℚ) ^ (30 : ℕ)
    | some q => q
  match existing with
  | none => dset (dset rec "_is_main" (.vBool is_main)) "_d" (.vFloat d)
  | some ex =>
    let ex_main := match dget ex "_is_main" with
      | some (.vBool b) => b
      | _ => false
    let ex_d := match dget ex "_d" with
      | some (.vFloat q) => q
      | _ => (10 : ℚ) ^ (30 : ℕ)
    if is_main && !ex_main then
      dset (dset rec "_is_main" (.vBool is_main)) "_d" (.vFloat d)
    else if (is_main == ex_main) && decide (d < ex_d) then
      dset (dset rec "_is_main" (.vBool is_main)) "_d" (.vFloat d)
    else ex

/-- `rec.get("type") != "Star"` is False exactly for the string value
`"Star"`. -/
def isStar (rec : PyDict) : Bool :=
  match pyGet rec "type" with
  | some (.vStr s) => s == "Star"
  | _ => false

/-- One interest-CSV row (lines 153-164). -/
def interest_entry (rec : PyDict) (sub : String) : PyDict :=
  let optInt : Option Int → PyVal := fun x => match x with
    | some n => .vInt n
    | none => .vNull
  let optVal : Option PyVal → PyVal := fun x => match x with
    | some v => v
    | none => .vNull
  [("systemName", .vStr (norm (pyGet rec "systemName"))),
   ("systemId", optInt (as_int (pyGet rec "systemId"))),
   ("systemId64", optInt (as_int (pyGet rec "systemId64"))),
   ("bodyName", .vStr (norm (pyGet rec "name"))),
   ("subType", .vStr sub),
   ("distanceToArrival", optVal (pyGet rec "distanceToArrival")),
   ("id64", optInt (as_int (pyGet rec "id64"))),
   ("updateTime", optVal (pyGet rec "updateTime"))]

/-- Mutable state of the `main` loop (the subtype counter, a printed
diagnostic, is not modelled). -/
structure ExState where
  primary_by_system : (String × KV) → Option PyDict
  interest_rows : List PyDict

/-- Body of the `main` loop (lines 137-164) for one record, after the
cap check: skip non-stars, skip records with no usable key, then fold
into `primary_by_system` and, for interesting subtypes, append an
interest row. -/
def extract_step (st : ExState) (rec : PyDict) : ExState :=
  if ¬ isStar rec then st
  else
    let k := system_key rec
    if k.1 = "none" then st
    else
      let sub := norm (pyGet rec "subType")
      let tbl := dupd st.primary_by_system k
        (choose_primary (st.primary_by_system k) rec)
      let st1 := { st with primary_by_system := tbl }
      if is_interesting_grav sub then
        { st1 with interest_rows := st1.interest_rows ++ [interest_entry rec sub] }
      else st1

/-- The `main` loop (lines 129-164) with its debug cap: `scanned += 1;
if args.limit and scanned > args.limit: break`. -/
def extract_loop (limit : Nat) : List PyDict → Nat → ExState → ExState
  | [], _, st => st
  | rec :: rs, scanned, st =>
    let scanned' := scanned + 1
    if limit ≠ 0 ∧ scanned' > limit then st
    else extract_loop limit rs scanned' (extract_step st rec)

/-- The whole scan starting from empty state. -/
def buildPrimary (recs : List PyDict) (limit : Nat) : ExState :=
  extract_loop limit recs 0 ⟨fun _ => none, []⟩

end Extract

/-! ### build_gravity_sources.py: the capped coordinate scan -/

namespace GravSrc

/-- `as_int` (lines 78-90), the script's own copy. -/
def as_int (x : Option PyVal) : Option Int :=
  match x with
  | none => none
  | some .vNull => none
  | some v =>
    let s := pyStrip (pyStr v)
    if s = "" then none
    else
      match parseIntStr s with
      | some n => some n
      | none => (parseFloatStr s).map ratTrunc

/-- `as_float` (lines 93-102): through `str(x).strip()`. -/
def as_float (x : Option PyVal) : Option ℚ :=
  match x with
  | none => none
  | some .vNull => none
  | some v =>
    let s := pyStrip (pyStr v)
    if s = "" then none
    else parseFloatStr s

/-- State of the stage-2 scan of `main` (lines 151-181): the
`coords_by_system_id` dict and the `matched` counter (`scanned` is the
loop variable). -/
structure GravState where
  coords_by_system_id : Int → Option (PyVal × ℚ × ℚ × ℚ × Option Int)
  matched : Nat

/-- Body of the stage-2 loop for one record, after the cap check:
skip unneeded ids, read name/coords, keep only fully
coordinated records.  A truthy non-dict `coords` value makes
`coords.get` raise `AttributeError` (uncaught in the source). -/
def grav_step (need : Int → Bool) (st : GravState) (rec : PyDict) :
    Except PyErr GravState :=
  match as_int (pyGet rec "id") with
  | none => .ok st
  | some sid =>
    if ¬ need sid then .ok st
    else
      let name := pyOr (pyGet rec "name") (.vStr "")
      match dictOf (pyOr (pyGet rec "coords") (.vDict [])) with
      | none => .error .attributeError
      | some coords =>
        let x := as_float (dget coords "x")
        let y := as_float (dget coords "y")
        let z := as_float (dget coords "z")
        let sid64 := as_int (pyGet rec "id64")
        match x, y, z with
        | some xv, some yv, some zv =>
          .ok (GravState.mk
            (dupd st.coords_by_system_id sid (name, xv, yv, zv, sid64))
            (st.matched + 1))
        | _, _, _ => .ok st

/-- The stage-2 loop (lines 155-158) with its debug cap:
`scanned += 1; if args.limit_systems and scanned > args.limit_systems:
break`. -/
def grav_loop (need : Int → Bool) (limit : Nat) :
    List PyDict → Nat → GravState → Except PyErr GravState
  | [], _, st => .ok st
  | rec :: rs, scanned, st =>
    let scanned' := scanned + 1
    if limit ≠ 0 ∧ scanned' > limit then .ok st
    else
      match grav_step need st rec with
      | .error e => .error e
      | .ok st' => grav_loop need limit rs scanned' st'

end GravSrc

/-! ### build_omphalos_systems.py: normalize_row and the build loop -/

namespace Omph

/-- `.strip()` demands a string; anything else raises
`AttributeError`. -/
def strAttr : PyVal → Except PyErr String
  | .vStr s => .ok s
  | _ => .error .attributeError

/-- One output row of `normalize_row` (lines 53-62).  The source stores
`math.sqrt(x*x + y*y + z*z)` formatted to three decimals; the model
keeps the exact radicand (float square roots are outside the rational
model and no claim depends on the rendering). -/
structure OmphRow where
  name : String
  x : ℚ
  y : ℚ
  z : ℚ
  distSq : ℚ
  allegiance : String
  government : String
  population : String

/-- `normalize_row` (lines 32-62): reject (return `None`) on empty name
or missing/uncoercible coordinates; `(value or default).strip()` and
`.get` on non-dict values raise `AttributeError`. -/
def normalize_row (system : PyDict) : Except PyErr (Option OmphRow) :=
  match strAttr (pyOr (pyGet system "name") (.vStr "")) with
  | .error e => .error e
  | .ok nameS =>
    let name := pyStrip nameS
    if name = "" then .ok none
    else
      match dictOf (pyOr (pyGet system "coords") (.vDict [])) with
      | none => .error .attributeError
      | some coords =>
        match pyFloat (dget coords "x"), pyFloat (dget coords "y"),
            pyFloat (dget coords "z") with
        | some x, some y, some z =>
          match dictOf (pyOr (pyGet system "information") (.vDict [])) with
          | none => .error .attributeError
          | some info =>
            match strAttr (pyOr (dget info "allegiance") (.vStr "")),
                strAttr (pyOr (dget info "government") (.vStr "")) with
            | .ok aS, .ok gS =>
              .ok (some (OmphRow.mk name x y z (x * x + y * y + z * z)
                (pyStrip aS) (pyStrip gS)
                (pyStr (pyOr (dget info "population") (.vStr "")))))
            | .error e, _ => .error e
            | .ok _, .error e => .error e
        | _, _, _ => .ok none

/-- The streaming loop of `build_omphalos_systems` (lines 92-99):
`total` counts every record, `kept` the accepted ones. -/
def omph_loop : List PyDict → Nat → Nat → List OmphRow →
    Except PyErr (Nat × Nat × List OmphRow)
  | [], total, kept, rows => .ok (total, kept, rows)
  | rec :: rs, total, kept, rows =>
    match normalize_row rec with
    | .error e => .error e
    | .ok none => omph_loop rs (total + 1) kept rows
    | .ok (some row) => omph_loop rs (total + 1) (kept + 1) (rows ++ [row])

/-- The whole pass (CSV writing is the collaborator contract and not
modelled). -/
def build_omphalos_systems (recs : List PyDict) :
    Except PyErr (Nat × Nat × List OmphRow) :=
  omph_loop recs 0 0 []

/-- Shape proviso under which `normalize_row` cannot raise: the `name`
value (after `or ""`) is a string, and `coords` / `information` (after
`or` dict-default) are dicts whose `allegiance` / `government` (after
`or ""`) are strings. -/
def row_safe (system : PyDict) : Bool :=
  (match pyOr (pyGet system "name") (.vStr "") with
    | .vStr _ => true
    | _ => false) &&
  (match dictOf (pyOr (pyGet system "coords") (.vDict [])) with
    | some _ => true
    | none => false) &&
  (match dictOf (pyOr (pyGet system "information") (.vDict [])) with
    | some info =>
      (match pyOr (dget info "allegiance") (.vStr "") with
        | .vStr _ => true
        | _ => false) &&
      (match pyOr (dget info "government") (.vStr "") with
        | .vStr _ => true
        | _ => false)
    | none => false)

end Omph


theorem Inert.append {a b : List Char} (ha : Inert a) (hb : Inert b) :
    Inert (a ++ b) := by
  induction ha with
  | nil => simpa using hb
  | chr c rest h1 h2 h3 _ ih => exact Inert.chr c _ h1 h2 h3 ih
  | str body rest hs _ ih =>
    have := Inert.str body (rest ++ b) hs ih
    simpa [List.append_assoc] using this
  | obj inner rest hi _ _ ihr =>
    have := Inert.obj inner (rest ++ b) hi ihr
    simpa [List.append_assoc] using this

theorem Inert.of_forall {l : List Char}
    (h : ∀ c ∈ l, c ≠ '"' ∧ c ≠ '{' ∧ c ≠ '}') : Inert l := by
  induction l with
  | nil => exact Inert.nil
  | cons c cs ih =>
    have hc := h c (by simp)
    exact Inert.chr c cs hc.1 hc.2.1 hc.2.2
      (ih fun x hx => h x (by simp [hx]))

/-! ### Behaviour of the scanner on grammatical content -/

namespace JoinScript

theorem strbody_run {body : List Char} (hb : IsStrBody body) :
    ∀ (buf : List Char) (d : Int) (rest : List Char),
      runDec (.inObject buf ⟨d, true, false⟩) (body ++ rest) =
        runDec (.inObject (buf ++ body) ⟨d, true, false⟩) rest := by
  induction hb with
  | nil => intro buf d rest; simp
  | esc c rest' _ ih =>
    intro buf d rest
    have h1 : runDec (.inObject buf ⟨d, true, false⟩)
        (('\\' :: c :: rest') ++ rest) =
        runDec (.inObject (buf ++ ['\\']) ⟨d, true, true⟩)
          ((c :: rest') ++ rest) := by
      simp [runDec, stepDec]
    have h2 : runDec (.inObject (buf ++ ['\\']) ⟨d, true, true⟩)
        ((c :: rest') ++ rest) =
        runDec (.inObject (buf ++ ['\\'] ++ [c]) ⟨d, true, false⟩)
          (rest' ++ rest) := by
      simp [runDec, stepDec]
    rw [h1, h2, ih]
    simp [List.append_assoc]
  | chr c rest' hq hb' _ ih =>
    intro buf d rest
    have h1 : runDec (.inObject buf ⟨d, true, false⟩) ((c :: rest') ++ rest) =
        runDec (.inObject (buf ++ [c]) ⟨d, true, false⟩) (rest' ++ rest) := by
      simp [runDec, stepDec, hq, hb']
    rw [h1, ih]
    simp [List.append_assoc]

theorem inert_run {xs : List Char} (hx : Inert xs) :
    ∀ (buf : List Char) (d : Int), 1 ≤ d → ∀ (rest : List Char),
      runDec (.inObject buf ⟨d, false, false⟩) (xs ++ rest) =
        runDec (.inObject (buf ++ xs) ⟨d, false, false⟩) rest := by
  induction hx with
  | nil => intro buf d _ rest; simp
  | chr c rest' h1 h2 h3 _ ih =>
    intro buf d hd rest
    have hstep : runDec (.inObject buf ⟨d, false, false⟩) ((c :: rest') ++ rest) =
        runDec (.inObject (buf ++ [c]) ⟨d, false, false⟩) (rest' ++ rest) := by
      simp [runDec, stepDec, h1, h2, h3]
    rw [hstep, ih (buf ++ [c]) d hd rest]
    simp [List.append_assoc]
  | str body rest' hs _ ih =>
    intro buf d hd rest
    have h1 : runDec (.inObject buf ⟨d, false, false⟩)
        (('"' :: body ++ '"' :: rest') ++ rest) =
        runDec (.inObject (buf ++ ['"']) ⟨d, true, false⟩)
          (body ++ '"' :: (rest' ++ rest)) := by
      simp [runDec, stepDec, List.append_assoc]
    have h2 := strbody_run hs (buf ++ ['"']) d ('"' :: (rest' ++ rest))
    have h3 : runDec (.inObject (buf ++ ['"'] ++ body) ⟨d, true, false⟩)
        ('"' :: (rest' ++ rest)) =
        runDec (.inObject (buf ++ ['"'] ++ body ++ ['"']) ⟨d, false, false⟩)
          (rest' ++ rest) := by
      simp [runDec, stepDec]
    rw [h1, h2, h3, ih _ d hd rest]
    simp [List.append_assoc]
  | obj inner rest' hi _ ihi ihr =>
    intro buf d hd rest
    have h1 : runDec (.inObject buf ⟨d, false, false⟩)
        (('{' :: inner ++ '}' :: rest') ++ rest) =
        runDec (.inObject (buf ++ ['{']) ⟨d + 1, false, false⟩)
          (inner ++ '}' :: (rest' ++ rest)) := by
      simp [runDec, stepDec, List.append_assoc]
    have h2 := ihi (buf ++ ['{']) (d + 1) (by omega) ('}' :: (rest' ++ rest))
    have h3 : runDec (.inObject (buf ++ ['{'] ++ inner) ⟨d + 1, false, false⟩)
        ('}' :: (rest' ++ rest)) =
        runDec (.inObject (buf ++ ['{'] ++ inner ++ ['}']) ⟨d, false, false⟩)
          (rest' ++ rest) := by
      have hne : d ≠ (0 : Int) := by omega
      simp [runDec, stepDec, hne]
    rw [h1, h2, h3, ihr _ d hd rest]
    simp [List.append_assoc]

/-- A complete inert interior followed by the matching `}` completes the
object: the scanner yields the whole object text and continues in
seek-next mode. -/
theorem obj_complete {inner : List Char} (hi : Inert inner)
    (buf rest : List Char) :
    runDec (.inObject buf ⟨1, false, false⟩) (inner ++ '}' :: rest) =
      ((buf ++ inner ++ ['}']) :: (runDec .seekNext rest).1,
        (runDec .seekNext rest).2) := by
  rw [inert_run hi buf 1 le_rfl ('}' :: rest)]
  simp [runDec, stepDec]

theorem seekFirst_skip {w : List Char}
    (hw : ∀ c ∈ w, c ≠ '{' ∧ c ≠ ']') (rest : List Char) :
    runDec .seekFirst (w ++ rest) = runDec .seekFirst rest := by
  induction w with
  | nil => simp
  | cons c cs ih =>
    have hc := hw c (by simp)
    simp only [List.cons_append, runDec, hc.1, hc.2, if_false]
    exact ih fun x hx => hw x (by simp [hx])

theorem seekNext_skip {w : List Char}
    (hw : ∀ c ∈ w, c ≠ '{' ∧ c ≠ ']') (rest : List Char) :
    runDec .seekNext (w ++ rest) = runDec .seekNext rest := by
  induction w with
  | nil => simp
  | cons c cs ih =>
    have hc := hw c (by simp)
    simp only [List.cons_append, runDec, hc.1, hc.2, if_false]
    exact ih fun x hx => hw x (by simp [hx])

end JoinScript

/-! ### Soundness of the reference recognizer w.r.t. the inert grammar -/

theorem jIsWs_inert_char {c : Char} (h : jIsWs c = true) :
    c ≠ '"' ∧ c ≠ '{' ∧ c ≠ '}' := by
  simp only [jIsWs, Bool.or_eq_true, decide_eq_true_eq] at h
  rcases h with ((rfl | rfl) | rfl) | rfl <;>
    exact ⟨by decide, by decide, by decide⟩

theorem jIsWs_seek_char {c : Char} (h : jIsWs c = true) :
    c ≠ '{' ∧ c ≠ ']' := by
  simp only [jIsWs, Bool.or_eq_true, decide_eq_true_eq] at h
  rcases h with ((rfl | rfl) | rfl) | rfl <;> exact ⟨by decide, by decide⟩

theorem atomChar_inert {c : Char} (h : atomChar c = true) :
    c ≠ '"' ∧ c ≠ '{' ∧ c ≠ '}' := by
  simp only [atomChar, Bool.or_eq_true, decide_eq_true_eq] at h
  refine ⟨?_, ?_, ?_⟩ <;> rintro rfl <;> revert h <;> decide

theorem inert_ws (l : List Char) : Inert (l.takeWhile jIsWs) :=
  Inert.of_forall fun _ hc => jIsWs_inert_char (List.mem_takeWhile_imp hc)

theorem inert_atoms (l : List Char) : Inert (l.takeWhile atomChar) :=
  Inert.of_forall fun _ hc => atomChar_inert (List.mem_takeWhile_imp hc)

/-- Decompose a list at its whitespace prefix. -/
theorem ws_split (l : List Char) : l = l.takeWhile jIsWs ++ l.dropWhile jIsWs :=
  (List.takeWhile_append_dropWhile jIsWs l).symm

theorem scanStr_sound_aux :
    ∀ (n : Nat) (l : List Char), l.length ≤ n →
      ∀ b r, scanStr l = some (b, r) → l = b ++ '"' :: r ∧ IsStrBody b := by
  intro n
  induction n with
  | zero =>
    intro l hl b r h
    have : l = [] := List.length_eq_zero.mp (Nat.le_zero.mp hl)
    subst this
    simp [scanStr] at h
  | succ n ih =>
    intro l hl b r h
    match l with
    | [] => simp [scanStr] at h
    | c :: cs =>
      rw [scanStr.eq_def] at h
      simp only [] at h
      by_cases hq : c = '"'
      · rw [if_pos hq] at h
        simp only [Option.some.injEq, Prod.mk.injEq] at h
        obtain ⟨rfl, rfl⟩ := h
        subst hq
        exact ⟨rfl, IsStrBody.nil⟩
      · by_cases hbs : c = '\\'
        · rw [if_neg hq, if_pos hbs] at h
          match cs, h with
          | [], h => simp at h
          | d :: cs', h =>
            simp only [Option.map_eq_some'] at h
            obtain ⟨⟨b', r'⟩, hscan, heq⟩ := h
            have hlen : cs'.length ≤ n := by
              simp only [List.length_cons] at hl; omega
            obtain ⟨hl', hsb⟩ := ih cs' hlen b' r' hscan
            simp only [Prod.mk.injEq] at heq
            obtain ⟨rfl, rfl⟩ := heq
            subst hbs
            rw [hl']
            exact ⟨by simp, IsStrBody.esc d _ hsb⟩
        · rw [if_neg hq, if_neg hbs] at h
          simp only [Option.map_eq_some'] at h
          obtain ⟨⟨b', r'⟩, hscan, heq⟩ := h
          have hlen : cs.length ≤ n := by
            simp only [List.length_cons] at hl; omega
          obtain ⟨hl', hsb⟩ := ih cs hlen b' r' hscan
          simp only [Prod.mk.injEq] at heq
          obtain ⟨rfl, rfl⟩ := heq
          rw [hl']
          exact ⟨by simp, IsStrBody.chr c _ hq hbs hsb⟩

theorem scanStr_sound {l b r : List Char} (h : scanStr l = some (b, r)) :
    l = b ++ '"' :: r ∧ IsStrBody b :=
  scanStr_sound_aux l.length l le_rfl b r h

/-- Assemble inert content around a single safe punctuation character. -/
theorem Inert.ws_chr {w rest : List Char} (hw : Inert w) (c : Char)
    (h1 : c ≠ '"') (h2 : c ≠ '{') (h3 : c ≠ '}') (hr : Inert rest) :
    Inert (w ++ c :: rest) :=
  hw.append (Inert.chr c rest h1 h2 h3 hr)

/-- Soundness of the five mutually recursive recognizers with respect to
the inert grammar: every recognized text is an exact prefix of the
input, object interiors are `Inert`, and a value text beginning with
`{` is a brace-delimited object with `Inert` interior. -/
theorem scanners_sound : ∀ (fuel : Nat),
    (∀ cs t r, scanVal fuel cs = some (t, r) →
      cs = t ++ r ∧ Inert t ∧
        ∀ t0, t = '{' :: t0 → ∃ inner, t = '{' :: inner ++ ['}'] ∧ Inert inner) ∧
    (∀ cs t r, scanObjBody fuel cs = some (t, r) →
      cs = t ++ r ∧ ∃ inner, t = inner ++ ['}'] ∧ Inert inner) ∧
    (∀ cs t r, scanMember fuel cs = some (t, r) →
      cs = t ++ r ∧ ∃ inner, t = inner ++ ['}'] ∧ Inert ('"' :: inner)) ∧
    (∀ cs t r, scanArrBody fuel cs = some (t, r) → cs = t ++ r ∧ Inert t) ∧
    (∀ cs t r, scanElem fuel cs = some (t, r) → cs = t ++ r ∧ Inert t) := by
  intro fuel
  induction fuel with
  | zero =>
    refine ⟨?_, ?_, ?_, ?_, ?_⟩ <;> intro cs t r h <;>
      simp [scanVal, scanObjBody, scanMember, scanArrBody, scanElem] at h
  | succ n ih =>
    obtain ⟨ihV, ihO, ihM, ihA, ihE⟩ := ih
    refine ⟨?_, ?_, ?_, ?_, ?_⟩
    · -- scanVal
      intro cs t r h
      match cs with
      | [] => simp [scanVal] at h
      | c :: cs' =>
        rw [scanVal] at h
        by_cases hq : c = '"'
        · simp only [if_pos hq, Option.map_eq_some'] at h
          obtain ⟨⟨b, r'⟩, hs, heq⟩ := h
          obtain ⟨hcs', hsb⟩ := scanStr_sound hs
          simp only [Prod.mk.injEq] at heq
          obtain ⟨rfl, rfl⟩ := heq
          subst hq
          refine ⟨by simp [hcs'], ?_, ?_⟩
          · exact Inert.str b [] hsb Inert.nil
          · intro t0 ht; simp at ht
        · by_cases hcb : c = '{'
          · simp only [if_neg hq, if_pos hcb, Option.map_eq_some'] at h
            obtain ⟨⟨tb, r'⟩, hob, heq⟩ := h
            obtain ⟨hcs', inner, htb, hinner⟩ := ihO cs' tb r' hob
            simp only [Prod.mk.injEq] at heq
            obtain ⟨rfl, rfl⟩ := heq
            subst hcb
            refine ⟨by simp [hcs'], ?_, ?_⟩
            · rw [htb]; exact Inert.obj inner [] hinner Inert.nil
            · intro t0 _; exact ⟨inner, by rw [htb]; simp, hinner⟩
          · by_cases hcr : c = '['
            · simp only [if_neg hq, if_neg hcb, if_pos hcr,
                Option.map_eq_some'] at h
              obtain ⟨⟨ta, r'⟩, hab, heq⟩ := h
              obtain ⟨hcs', hta⟩ := ihA cs' ta r' hab
              simp only [Prod.mk.injEq] at heq
              obtain ⟨rfl, rfl⟩ := heq
              subst hcr
              refine ⟨by simp [hcs'], ?_, ?_⟩
              · exact Inert.chr '[' ta (by decide) (by decide) (by decide) hta
              · intro t0 ht; simp at ht
            · simp only [if_neg hq, if_neg hcb, if_neg hcr] at h
              by_cases hta : (c :: cs').takeWhile atomChar = []
              · simp [hta] at h
              · simp only [if_neg hta, Option.some.injEq, Prod.mk.injEq] at h
                obtain ⟨rfl, rfl⟩ := h
                refine ⟨(List.takeWhile_append_dropWhile atomChar _).symm,
                  inert_atoms _, ?_⟩
                intro t0 ht
                have hmem : '{' ∈ (c :: cs').takeWhile atomChar := by
                  rw [ht]; exact List.mem_cons_self _ _
                have := List.mem_takeWhile_imp hmem
                simp [atomChar] at this
    · -- scanObjBody
      intro cs t r h
      rw [scanObjBody] at h
      rcases hdw : cs.dropWhile jIsWs with _ | ⟨c, r0⟩ <;> rw [hdw] at h
      · simp at h
      · simp only [] at h
        by_cases h1 : c = '}'
        · simp only [if_pos h1, Option.some.injEq, Prod.mk.injEq] at h
          obtain ⟨rfl, rfl⟩ := h
          subst h1
          constructor
          · conv_lhs => rw [ws_split cs]
            rw [hdw]; simp
          · exact ⟨cs.takeWhile jIsWs, rfl, inert_ws cs⟩
        · by_cases h2 : c = '"'
          · simp only [if_neg h1, if_pos h2, Option.map_eq_some'] at h
            obtain ⟨⟨tm, r'⟩, hm, heq⟩ := h
            obtain ⟨hr0, inner, htm, hin⟩ := ihM r0 tm r' hm
            simp only [Prod.mk.injEq] at heq
            obtain ⟨rfl, rfl⟩ := heq
            subst h2
            constructor
            · conv_lhs => rw [ws_split cs]
              rw [hdw, hr0]; simp
            · refine ⟨cs.takeWhile jIsWs ++ '"' :: inner, ?_, ?_⟩
              · rw [htm]; simp
              · exact (inert_ws cs).append hin
          · simp [if_neg h1, if_neg h2] at h
    · -- scanMember
      intro cs t r h
      rw [scanMember] at h
      rcases hss : scanStr cs with _ | ⟨kb, r1⟩ <;> rw [hss] at h
      · simp at h
      · simp only [] at h
        obtain ⟨hcs, hkb⟩ := scanStr_sound hss
        rcases hdw1 : r1.dropWhile jIsWs with _ | ⟨c, r2⟩ <;> rw [hdw1] at h
        · simp at h
        · simp only [] at h
          by_cases h1 : c = ':'
          · rw [if_pos h1] at h
            rcases hsv : scanVal n (r2.dropWhile jIsWs) with _ | ⟨vt, r3⟩ <;>
              rw [hsv] at h
            · simp at h
            · simp only [] at h
              obtain ⟨hv1, hvt, -⟩ := ihV _ vt r3 hsv
              rcases hdw3 : r3.dropWhile jIsWs with _ | ⟨c2, r4⟩ <;>
                rw [hdw3] at h
              · simp at h
              · simp only [] at h
                by_cases h2 : c2 = '}'
                · simp only [if_pos h2, Option.some.injEq, Prod.mk.injEq] at h
                  obtain ⟨rfl, rfl⟩ := h
                  subst h1; subst h2
                  constructor
                  · rw [hcs]
                    conv_lhs => rw [ws_split r1]
                    rw [hdw1]
                    conv_lhs => rw [ws_split r2]
                    rw [hv1]
                    conv_lhs => rw [ws_split r3]
                    rw [hdw3]
                    simp
                  · refine ⟨kb ++ '"' :: r1.takeWhile jIsWs ++
                      ':' :: r2.takeWhile jIsWs ++ vt ++ r3.takeWhile jIsWs,
                      by simp, ?_⟩
                    have hrest : Inert (r1.takeWhile jIsWs ++
                        ':' :: (r2.takeWhile jIsWs ++
                          (vt ++ r3.takeWhile jIsWs))) :=
                      (inert_ws r1).ws_chr ':' (by decide) (by decide)
                        (by decide)
                        ((inert_ws r2).append (hvt.append (inert_ws r3)))
                    have := Inert.str kb _ hkb hrest
                    simpa [List.append_assoc] using this
                · by_cases h3 : c2 = ','
                  · rw [if_neg h2, if_pos h3] at h
                    rcases hdw4 : r4.dropWhile jIsWs with _ | ⟨c3, r5⟩ <;>
                      rw [hdw4] at h
                    · simp at h
                    · simp only [] at h
                      by_cases h4 : c3 = '"'
                      · simp only [if_pos h4, Option.map_eq_some'] at h
                        obtain ⟨⟨tm, r'⟩, hm, heq⟩ := h
                        obtain ⟨hr5, inner, htm, hin⟩ := ihM r5 tm r' hm
                        simp only [Prod.mk.injEq] at heq
                        obtain ⟨rfl, rfl⟩ := heq
                        subst h1; subst h3; subst h4
                        constructor
                        · rw [hcs]
                          conv_lhs => rw [ws_split r1]
                          rw [hdw1]
                          conv_lhs => rw [ws_split r2]
                          rw [hv1]
                          conv_lhs => rw [ws_split r3]
                          rw [hdw3]
                          conv_lhs => rw [ws_split r4]
                          rw [hdw4, hr5]
                          simp
                        · refine ⟨kb ++ '"' :: r1.takeWhile jIsWs ++
                            ':' :: r2.takeWhile jIsWs ++ vt ++
                            r3.takeWhile jIsWs ++ ',' :: r4.takeWhile jIsWs ++
                            '"' :: inner, by rw [htm]; simp, ?_⟩
                          have hrest : Inert (r1.takeWhile jIsWs ++
                              ':' :: (r2.takeWhile jIsWs ++
                                (vt ++ (r3.takeWhile jIsWs ++
                                  ',' :: (r4.takeWhile jIsWs ++
                                    '"' :: inner))))) :=
                            (inert_ws r1).ws_chr ':' (by decide) (by decide)
                              (by decide)
                              ((inert_ws r2).append (hvt.append
                                ((inert_ws r3).ws_chr ',' (by decide)
                                  (by decide) (by decide)
                                  ((inert_ws r4).append hin))))
                          have := Inert.str kb _ hkb hrest
                          simpa [List.append_assoc] using this
                      · simp [h4] at h
                  · simp [h2, h3] at h
          · simp [h1] at h
    · -- scanArrBody
      intro cs t r h
      rw [scanArrBody] at h
      rcases hdw : cs.dropWhile jIsWs with _ | ⟨c, r0⟩ <;> rw [hdw] at h
      · simp at h
      · simp only [] at h
        by_cases h1 : c = ']'
        · simp only [if_pos h1, Option.some.injEq, Prod.mk.injEq] at h
          obtain ⟨rfl, rfl⟩ := h
          subst h1
          constructor
          · conv_lhs => rw [ws_split cs]
            rw [hdw]; simp
          · exact (inert_ws cs).ws_chr ']' (by decide) (by decide) (by decide)
              Inert.nil
        · simp only [if_neg h1, Option.map_eq_some'] at h
          obtain ⟨⟨te, r'⟩, he, heq⟩ := h
          obtain ⟨he1, hte⟩ := ihE _ te r' he
          simp only [Prod.mk.injEq] at heq
          obtain ⟨rfl, rfl⟩ := heq
          constructor
          · conv_lhs => rw [ws_split cs]
            rw [hdw, he1]; simp
          · exact (inert_ws cs).append hte
    · -- scanElem
      intro cs t r h
      rw [scanElem] at h
      rcases hsv : scanVal n cs with _ | ⟨vt, r1⟩ <;> rw [hsv] at h
      · simp at h
      · simp only [] at h
        obtain ⟨hv1, hvt, -⟩ := ihV cs vt r1 hsv
        rcases hdw : r1.dropWhile jIsWs with _ | ⟨c, r2⟩ <;> rw [hdw] at h
        · simp at h
        · simp only [] at h
          by_cases h1 : c = ']'
          · simp only [if_pos h1, Option.some.injEq, Prod.mk.injEq] at h
            obtain ⟨rfl, rfl⟩ := h
            subst h1
            constructor
            · rw [hv1]
              conv_lhs => rw [ws_split r1]
              rw [hdw]; simp
            · have := hvt.append ((inert_ws r1).ws_chr ']' (by decide)
                (by decide) (by decide) Inert.nil)
              simpa [List.append_assoc] using this
          · by_cases h2 : c = ','
            · simp only [if_neg h1, if_pos h2, Option.map_eq_some'] at h
              obtain ⟨⟨te, r'⟩, he, heq⟩ := h
              obtain ⟨he1, hte⟩ := ihE _ te r' he
              simp only [Prod.mk.injEq] at heq
              obtain ⟨rfl, rfl⟩ := heq
              subst h2
              constructor
              · rw [hv1]
                conv_lhs => rw [ws_split r1]
                rw [hdw]
                conv_lhs => rw [ws_split r2]
                rw [he1]
                simp
              · have := hvt.append ((inert_ws r1).ws_chr ',' (by decide)
                  (by decide) (by decide) ((inert_ws r2).append hte))
                simpa [List.append_assoc] using this
            · simp [h1, h2] at h

/-! ### Decoder / reference-parse agreement -/

namespace JoinScript

theorem seekFirst_brace (cs : List Char) :
    runDec .seekFirst ('{' :: cs) =
      runDec (.inObject ['{'] ⟨1, false, false⟩) cs := by
  simp [runDec]

theorem seekNext_brace (cs : List Char) :
    runDec .seekNext ('{' :: cs) =
      runDec (.inObject ['{'] ⟨1, false, false⟩) cs := by
  simp [runDec]

theorem seekFirst_rbracket (cs : List Char) :
    runDec .seekFirst (']' :: cs) = ([], none) := by
  simp [runDec]

theorem seekNext_rbracket (cs : List Char) :
    runDec .seekNext (']' :: cs) = ([], none) := by
  simp [runDec]

theorem seekNext_comma (cs : List Char) :
    runDec .seekNext (',' :: cs) = runDec .seekNext cs := by
  simp [runDec]

theorem jIsWs_to_pyIsSpace {c : Char} (h : jIsWs c = true) :
    pyIsSpace c = true := by
  simp only [jIsWs, Bool.or_eq_true, decide_eq_true_eq] at h
  rcases h with ((rfl | rfl) | rfl) | rfl <;> decide

/-- The decoders skip Python whitespace; after a JSON-whitespace prefix
ending at `[`, both notions of whitespace stop at the same place. -/
theorem pyDrop_of_jDrop {input r : List Char}
    (h : input.dropWhile jIsWs = '[' :: r) :
    input.dropWhile pyIsSpace = '[' :: r := by
  induction input with
  | nil => simp at h
  | cons c cs ih =>
    by_cases hj : jIsWs c
    · rw [List.dropWhile_cons_of_pos hj] at h
      rw [List.dropWhile_cons_of_pos (jIsWs_to_pyIsSpace hj)]
      exact ih h
    · rw [List.dropWhile_cons_of_neg hj] at h
      obtain ⟨rfl, rfl⟩ := List.cons.inj h
      rw [List.dropWhile_cons_of_neg (by decide)]

/-- JSON-whitespace runs are invisible to the seek phases. -/
theorem seekFirst_skip_ws (l rest : List Char) :
    runDec .seekFirst (l.takeWhile jIsWs ++ rest) = runDec .seekFirst rest :=
  seekFirst_skip
    (fun _ hc => jIsWs_seek_char (List.mem_takeWhile_imp hc)) rest

theorem seekNext_skip_ws (l rest : List Char) :
    runDec .seekNext (l.takeWhile jIsWs ++ rest) = runDec .seekNext rest :=
  seekNext_skip
    (fun _ hc => jIsWs_seek_char (List.mem_takeWhile_imp hc)) rest

/-- Element-loop agreement: whenever the reference parse delimits the
remaining elements of the array (all of them objects), the streaming
scanner — started in either seek mode — yields exactly those element
texts and terminates without error. -/
theorem elems_agree : ∀ (fuel : Nat) (cs : List Char) (es : List (List Char))
    (tr : List Char), refDocElems fuel cs = some (es, tr) →
    (∀ e ∈ es, e.head? = some '{') →
    runDec .seekFirst cs = (es, none) ∧ runDec .seekNext cs = (es, none) := by
  intro fuel
  induction fuel with
  | zero => intro cs es tr h _; simp [refDocElems] at h
  | succ n ih =>
    intro cs es tr h hheads
    rw [refDocElems] at h
    rcases hsv : scanVal n cs with _ | ⟨vt, r1⟩ <;> rw [hsv] at h
    · simp at h
    · simp only [] at h
      obtain ⟨hcs, -, hhead⟩ := (scanners_sound n).1 cs vt r1 hsv
      rcases hdw : r1.dropWhile jIsWs with _ | ⟨c, r2⟩ <;> rw [hdw] at h
      · simp at h
      · simp only [] at h
        by_cases h1 : c = ']'
        · simp only [if_pos h1, Option.some.injEq, Prod.mk.injEq] at h
          obtain ⟨rfl, rfl⟩ := h
          subst h1
          have hv : vt.head? = some '{' := hheads vt (by simp)
          match vt, hv with
          | c0 :: t0, hv =>
            have hc0 : c0 = '{' := by simpa using hv
            subst hc0
            obtain ⟨inner, hvt, hinner⟩ := hhead t0 rfl
            have hshape : cs = '{' :: (inner ++ '}' :: r1) := by
              rw [hcs, hvt]; simp
            have hr1 : runDec .seekNext r1 = ([], none) := by
              conv_lhs => rw [ws_split r1]
              rw [hdw, seekNext_skip_ws, seekNext_rbracket]
            have hcore : runDec (.inObject ['{'] ⟨1, false, false⟩)
                (inner ++ '}' :: r1) = (['{' :: t0], none) := by
              rw [obj_complete hinner, hr1]
              rw [hvt]; simp
            constructor
            · rw [hshape, seekFirst_brace, hcore]
            · rw [hshape, seekNext_brace, hcore]
        · by_cases h2 : c = ','
          · simp only [if_neg h1, if_pos h2, Option.map_eq_some'] at h
            obtain ⟨⟨es', tr'⟩, hrec, heq⟩ := h
            simp only [Prod.mk.injEq] at heq
            obtain ⟨rfl, rfl⟩ := heq
            subst h2
            have hv : vt.head? = some '{' := hheads vt (by simp)
            match vt, hv with
            | c0 :: t0, hv =>
              have hc0 : c0 = '{' := by simpa using hv
              subst hc0
              obtain ⟨inner, hvt, hinner⟩ := hhead t0 rfl
              have hshape : cs = '{' :: (inner ++ '}' :: r1) := by
                rw [hcs, hvt]; simp
              have hrest := ih (r2.dropWhile jIsWs) es' _ hrec
                (fun e he => hheads e (by simp [he]))
              have hr1 : runDec .seekNext r1 = (es', none) := by
                conv_lhs => rw [ws_split r1]
                rw [hdw, seekNext_skip_ws, seekNext_comma]
                conv_lhs => rw [ws_split r2]
                rw [seekNext_skip_ws]
                exact hrest.2
              have hcore : runDec (.inObject ['{'] ⟨1, false, false⟩)
                  (inner ++ '}' :: r1) = (('{' :: t0) :: es', none) := by
                rw [obj_complete hinner, hr1]
                rw [hvt]; simp
              constructor
              · rw [hshape, seekFirst_brace, hcore]
              · rw [hshape, seekNext_brace, hcore]
          · simp [h1, h2] at h

end JoinScript

theorem dropWhile_all {p : Char → Bool} {w : List Char}
    (hw : ∀ c ∈ w, p c = true) (l : List Char) :
    (w ++ l).dropWhile p = l.dropWhile p := by
  induction w with
  | nil => rfl
  | cons c cs ih =>
    rw [List.cons_append, List.dropWhile_cons_of_pos (hw c (by simp))]
    exact ih fun x hx => hw x (by simp [hx])

/-- C1.  For every well-formed gzip-decompressed document accepted by the
reference whole-document parse as `[ obj, ..., obj ]` (all N top-level
elements objects), the streaming decoder yields exactly those N element
texts, in input order, and terminates without error; each yielded text
is character-identical to the corresponding reference element, so any
JSON object parser maps them to structurally equal values.  The empty
array yields zero elements and no error. -/
theorem c1_decoder_agrees_with_reference_parse :
    (∀ (input : List Char) (es : List (List Char)),
      refDocParse input = some es → (∀ e ∈ es, e.head? = some '{') →
      JoinScript.iterObjs input = (es, none)) ∧
    JoinScript.iterObjs ['[', ']'] = ([], none) := by
  constructor
  · intro input es h hheads
    rw [refDocParse] at h
    rcases hdw : input.dropWhile jIsWs with _ | ⟨c, r⟩ <;> rw [hdw] at h
    · simp at h
    · simp only [] at h
      by_cases hc : c = '['
      · rw [if_pos hc] at h
        subst hc
        have hpy := JoinScript.pyDrop_of_jDrop hdw
        have hiter : JoinScript.iterObjs input = JoinScript.runDec .seekFirst r := by
          unfold JoinScript.iterObjs
          rw [hpy]
          simp
        rcases hdw2 : r.dropWhile jIsWs with _ | ⟨c2, r2⟩ <;> rw [hdw2] at h
        · simp at h
        · simp only [] at h
          by_cases h2 : c2 = ']'
          · rw [if_pos h2] at h
            subst h2
            by_cases htr : r2.dropWhile jIsWs = []
            · rw [if_pos htr] at h
              simp only [Option.some.injEq] at h
              subst h
              rw [hiter]
              conv_lhs => rw [ws_split r]
              rw [hdw2, JoinScript.seekFirst_skip_ws,
                JoinScript.seekFirst_rbracket]
            · simp [htr] at h
          · rw [if_neg h2] at h
            rcases hre : refDocElems (input.length + 1) (c2 :: r2)
                with _ | ⟨es', tr⟩ <;> rw [hre] at h
            · simp at h
            · simp only [] at h
              by_cases htr : tr.dropWhile jIsWs = []
              · rw [if_pos htr] at h
                simp only [Option.some.injEq] at h
                subst h
                have hel := JoinScript.elems_agree (input.length + 1)
                  (c2 :: r2) _ _ hre hheads
                rw [hiter]
                conv_lhs => rw [ws_split r]
                rw [hdw2, JoinScript.seekFirst_skip_ws]
                exact hel.1
              · simp [htr] at h
      · simp [hc] at h
  · rfl

/-- C2.  While the scanner's in-string flag is set, `{` and `}` leave the
brace depth unchanged, and a quote under a pending backslash escape does
not clear the in-string flag; consequently the object boundary (and the
yielded text and continuation) is found at the same closing brace
whatever escaped content — including `{`, `}` and escaped quotes — any
string literal of the object carries. -/
theorem c2_string_values_do_not_perturb_boundaries :
    (∀ (d : Int) (e : Bool),
      (JoinScript.stepDec ⟨d, true, e⟩ '{').depth = d ∧
      (JoinScript.stepDec ⟨d, true, e⟩ '}').depth = d) ∧
    (∀ d : Int, (JoinScript.stepDec ⟨d, true, true⟩ '"').in_str = true) ∧
    (∀ pre b1 b2 post rest buf : List Char,
      Inert pre → IsStrBody b1 → IsStrBody b2 → Inert post →
      (JoinScript.runDec (.inObject buf ⟨1, false, false⟩)
          ((pre ++ '"' :: b1 ++ '"' :: post) ++ '}' :: rest) =
        ((buf ++ (pre ++ '"' :: b1 ++ '"' :: post) ++ ['}']) ::
            (JoinScript.runDec .seekNext rest).1,
          (JoinScript.runDec .seekNext rest).2) ∧
       JoinScript.runDec (.inObject buf ⟨1, false, false⟩)
          ((pre ++ '"' :: b2 ++ '"' :: post) ++ '}' :: rest) =
        ((buf ++ (pre ++ '"' :: b2 ++ '"' :: post) ++ ['}']) ::
            (JoinScript.runDec .seekNext rest).1,
          (JoinScript.runDec .seekNext rest).2))) := by
  refine ⟨?_, ?_, ?_⟩
  · intro d e; cases e <;> simp [JoinScript.stepDec]
  · intro d; simp [JoinScript.stepDec]
  · intro pre b1 b2 post rest buf hpre hb1 hb2 hpost
    have hin1 : Inert (pre ++ '"' :: b1 ++ '"' :: post) := by
      have := hpre.append (Inert.str b1 post hb1 hpost)
      simpa [List.append_assoc] using this
    have hin2 : Inert (pre ++ '"' :: b2 ++ '"' :: post) := by
      have := hpre.append (Inert.str b2 post hb2 hpost)
      simpa [List.append_assoc] using this
    exact ⟨JoinScript.obj_complete hin1 buf rest,
      JoinScript.obj_complete hin2 buf rest⟩

theorem tail_run : ∀ (t : TruncTail), TailWf t →
    JoinScript.runDec .seekFirst (renderTail t) =
      (tailYields t, some .eofMidObject) ∧
    JoinScript.runDec .seekNext (renderTail t) =
      (tailYields t, some .eofMidObject) := by
  intro t
  induction t with
  | last sep inner =>
    intro hwf
    obtain ⟨hsep, hinner⟩ := hwf
    have hcore : JoinScript.runDec (.inObject ['{'] ⟨1, false, false⟩) inner =
        ([], some .eofMidObject) := by
      have := JoinScript.inert_run hinner ['{'] 1 le_rfl []
      rw [List.append_nil] at this
      rw [this]
      rfl
    refine ⟨?_, ?_⟩
    · rw [renderTail, JoinScript.seekFirst_skip hsep,
        JoinScript.seekFirst_brace, hcore]
      rfl
    · rw [renderTail, JoinScript.seekNext_skip hsep,
        JoinScript.seekNext_brace, hcore]
      rfl
  | cons sep inner t ih =>
    intro hwf
    obtain ⟨hsep, hinner, hwt⟩ := hwf
    have hrec := (ih hwt).2
    have hcore : JoinScript.runDec (.inObject ['{'] ⟨1, false, false⟩)
        (inner ++ '}' :: renderTail t) =
        (('{' :: inner ++ ['}']) :: tailYields t, some .eofMidObject) := by
      rw [JoinScript.obj_complete hinner, hrec]
      simp
    refine ⟨?_, ?_⟩
    · rw [renderTail, JoinScript.seekFirst_skip hsep,
        JoinScript.seekFirst_brace, hcore]
      rfl
    · rw [renderTail, JoinScript.seekNext_skip hsep,
        JoinScript.seekNext_brace, hcore]
      rfl

/-- C3.  If end of input is reached while the scanner is mid-object
(depth still positive), the decoder raises the EOF-mid-object error at
once, yielding nothing further; and on any array document whose final
object is truncated — in particular one character before its closing
brace — the decoder yields exactly the earlier complete objects, then
raises the truncated-stream error instead of yielding a partial object.
(The model is a total function, so termination is intrinsic.) -/
theorem c3_truncated_stream_raises :
    (∀ (buf : List Char) (st : SMState), 0 < st.depth →
      JoinScript.runDec (.inObject buf st) [] = ([], some .eofMidObject)) ∧
    (∀ (w : List Char) (t : TruncTail), (∀ c ∈ w, pyIsSpace c = true) →
      TailWf t →
      JoinScript.iterObjs (w ++ '[' :: renderTail t) =
        (tailYields t, some .eofMidObject)) := by
  constructor
  · intro buf st _; rfl
  · intro w t hw hwf
    unfold JoinScript.iterObjs
    rw [dropWhile_all hw, List.dropWhile_cons_of_neg (by decide)]
    simpa using (tail_run t hwf).1

/-- C5.  If the first non-whitespace character of the stream is not `[`
(or the stream is all whitespace), the decoder raises the not-a-JSON-
array format error carrying that character, and yields no element at
all. -/
theorem c5_not_array_error :
    ∀ (input : List Char),
      (input.dropWhile pyIsSpace).head? ≠ some '[' →
      JoinScript.iterObjs input =
        ([], some (.notArray (input.dropWhile pyIsSpace).head?)) := by
  intro input h
  unfold JoinScript.iterObjs
  rcases hdw : input.dropWhile pyIsSpace with _ | ⟨c, cs⟩
  · simp
  · rw [hdw] at h
    have hc : ¬ c = '[' := by simpa using h
    simp [hc]

/-- C10.  The two textually duplicated decoders — in
`join_star_type_to_coords.py` and `build_gravity_sources.py` — are
extensionally equal: on every input stream they yield the same object
sequence and end with the same error (or none) at the same point. -/
theorem c10_decoder_copies_equal :
    ∀ (input : List Char),
      JoinScript.iterObjs input = GravScript.iterObjs input := by
  have hstep : ∀ st c, JoinScript.stepDec st c = GravScript.stepDec st c :=
    fun _ _ => rfl
  have hrun : ∀ (cs : List Char) (m : Mode),
      JoinScript.runDec m cs = GravScript.runDec m cs := by
    intro cs
    induction cs with
    | nil => intro m; cases m <;> rfl
    | cons c cs ih =>
      intro m
      cases m with
      | seekFirst =>
        simp only [JoinScript.runDec, GravScript.runDec]
        split_ifs <;> first | rfl | apply ih
      | seekNext =>
        simp only [JoinScript.runDec, GravScript.runDec]
        split_ifs <;> first | rfl | apply ih
      | inObject buf st =>
        simp only [JoinScript.runDec, GravScript.runDec, hstep]
        split_ifs <;> simp [ih]
  intro input
  unfold JoinScript.iterObjs GravScript.iterObjs
  rcases hdw : input.dropWhile pyIsSpace with _ | ⟨c, cs⟩
  · rfl
  · by_cases hc : c = '[' <;> simp [hc, hrun]

theorem c1_decoder_agrees_with_reference_parse_witness :
    refDocParse ['[', '{', '}', ',', ' ', '{', '}', ']'] =
      some [['{', '}'], ['{', '}']] ∧
    JoinScript.iterObjs ['[', '{', '}', ',', ' ', '{', '}', ']'] =
      ([['{', '}'], ['{', '}']], none) :=
  ⟨by rfl,
    c1_decoder_agrees_with_reference_parse.1 _ [['{', '}'], ['{', '}']]
      (by rfl) (by decide)⟩

theorem c2_string_values_do_not_perturb_boundaries_witness :
    JoinScript.runDec (.inObject ['{'] ⟨1, false, false⟩)
        ['"', '{', '"', '}'] = ([['{', '"', '{', '"', '}']], none) ∧
    JoinScript.runDec (.inObject ['{'] ⟨1, false, false⟩)
        ['"', '\\', '"', '"', '}'] =
      ([['{', '"', '\\', '"', '"', '}']], none) := by
  have h := c2_string_values_do_not_perturb_boundaries.2.2
    [] ['{'] ['\\', '"'] [] [] ['{'] Inert.nil
    (IsStrBody.chr '{' [] (by decide) (by decide) IsStrBody.nil)
    (IsStrBody.esc '"' [] IsStrBody.nil) Inert.nil
  obtain ⟨h1, h2⟩ := h
  rw [show JoinScript.runDec Mode.seekNext [] = ([], none) from rfl] at h1 h2
  exact ⟨by simpa using h1, by simpa using h2⟩

theorem c3_truncated_stream_raises_witness :
    JoinScript.runDec (.inObject [] ⟨1, false, false⟩) [] =
      ([], some .eofMidObject) ∧
    JoinScript.iterObjs [' ', '[', '{', '}', ',', '{'] =
      ([['{', '}']], some .eofMidObject) := by
  constructor
  · exact c3_truncated_stream_raises.1 [] ⟨1, false, false⟩ (by decide)
  · have h := c3_truncated_stream_raises.2 [' ']
      (TruncTail.cons [] [] (TruncTail.last [','] []))
      (by decide) ⟨by simp, Inert.nil, by decide, Inert.nil⟩
    simpa [renderTail, tailYields] using h

theorem c5_not_array_error_witness :
    (['x'].dropWhile pyIsSpace).head? ≠ some '[' ∧
    JoinScript.iterObjs ['x'] = ([], some (.notArray (some 'x'))) :=
  ⟨by decide, c5_not_array_error ['x'] (by decide)⟩

/-! ### Claims C4 and C8: the join resolver -/

/-- C4, counterexample.  The claim says a record whose id is present but
unmatched in `by_id` is never resolved via `by_id64`; in the code the
`elif` falls through: with `by_id` empty, `by_id64 = (2 -> B)` and a
record carrying `id = 1` (present, unmatched) and `id64 = 2`, the probe
returns the `by_id64` hit. -/
theorem c4_probe_falls_through_counterexample :
    JoinStar.probePrimary
      (JoinStar.Maps.mk (fun _ => none)
        (fun i => if i = 2 then some [("systemName", "B")] else none)
        (fun _ => none))
      [("id", PyVal.vInt 1), ("id64", PyVal.vInt 2)] =
      some ([("systemName", "B")], JoinStar.Via.vId64) := rfl

/-- C4, amended.  The probe tries `by_id`, then `by_id64`, then
`by_name`, in that fixed order, returning the first hit — and it DOES
fall through to a lower-priority key when a higher-priority key is
present on the record but unmatched in the table: a hit is taken from
`by_id64` (resp. `by_name`) exactly when the `by_id` (resp. also
`by_id64`) lookup produced nothing, whether its key was absent or
merely unmatched. -/
theorem c4_probe_priority_amended (m : JoinStar.Maps) (rec : PyDict) :
    (∀ i prow, JoinStar.safe_int (pyGet rec "id") = some i →
      m.by_id i = some prow →
      JoinStar.probePrimary m rec = some (prow, .vId)) ∧
    (∀ i64 prow, (JoinStar.safe_int (pyGet rec "id")).bind m.by_id = none →
      JoinStar.safe_int (pyGet rec "id64") = some i64 →
      m.by_id64 i64 = some prow →
      JoinStar.probePrimary m rec = some (prow, .vId64)) ∧
    ((JoinStar.safe_int (pyGet rec "id")).bind m.by_id = none →
      (JoinStar.safe_int (pyGet rec "id64")).bind m.by_id64 = none →
      JoinStar.norm_name (pyGet rec "name") ≠ "" →
      JoinStar.probePrimary m rec =
        (m.by_name (JoinStar.norm_name (pyGet rec "name"))).map
          fun prow => (prow, .vName)) ∧
    ((JoinStar.safe_int (pyGet rec "id")).bind m.by_id = none →
      (JoinStar.safe_int (pyGet rec "id64")).bind m.by_id64 = none →
      JoinStar.norm_name (pyGet rec "name") = "" →
      JoinStar.probePrimary m rec = none) := by
  refine ⟨?_, ?_, ?_, ?_⟩
  · intro i prow h1 h2
    simp [JoinStar.probePrimary, h1, h2]
  · intro i64 prow h1 h2 h3
    simp [JoinStar.probePrimary, h1, h2, h3]
  · intro h1 h2 h3
    simp [JoinStar.probePrimary, h1, h2, h3]
  · intro h1 h2 h3
    simp [JoinStar.probePrimary, h1, h2, h3]

theorem c4_probe_priority_amended_witness :
    JoinStar.probePrimary
      (JoinStar.Maps.mk (fun _ => none)
        (fun i => if i = 7 then some [("systemName", "C")] else none)
        (fun _ => none))
      [("id", PyVal.vInt 3), ("id64", PyVal.vInt 7)] =
      some ([("systemName", "C")], JoinStar.Via.vId64) :=
  (c4_probe_priority_amended
      (JoinStar.Maps.mk (fun _ => none)
        (fun i => if i = 7 then some [("systemName", "C")] else none)
        (fun _ => none))
      [("id", PyVal.vInt 3), ("id64", PyVal.vInt 7)]).2.1
    7 [("systemName", "C")] rfl rfl rfl

namespace JoinStar

theorem load_step_by_id (m : Maps) (row : Row) (k : Int) :
    (load_step m row).by_id k =
      if safe_int (csvGet row "systemId") = some k then some row
      else m.by_id k := by
  rcases h1 : safe_int (csvGet row "systemId") with _ | i <;>
    rcases h2 : safe_int (csvGet row "systemId64") with _ | j <;>
      by_cases h3 : norm_name (csvGet row "systemName") ≠ "" <;>
        simp [load_step, h1, h2, h3, dupd, eq_comm]

theorem load_step_by_id64 (m : Maps) (row : Row) (k : Int) :
    (load_step m row).by_id64 k =
      if safe_int (csvGet row "systemId64") = some k then some row
      else m.by_id64 k := by
  rcases h1 : safe_int (csvGet row "systemId") with _ | i <;>
    rcases h2 : safe_int (csvGet row "systemId64") with _ | j <;>
      by_cases h3 : norm_name (csvGet row "systemName") ≠ "" <;>
        simp [load_step, h1, h2, h3, dupd, eq_comm]

theorem load_step_by_name (m : Maps) (row : Row) (k : String) :
    (load_step m row).by_name k =
      if norm_name (csvGet row "systemName") ≠ "" ∧
          norm_name (csvGet row "systemName") = k then some row
      else m.by_name k := by
  rcases h1 : safe_int (csvGet row "systemId") with _ | i <;>
    rcases h2 : safe_int (csvGet row "systemId64") with _ | j <;>
      by_cases h3 : norm_name (csvGet row "systemName") ≠ "" <;>
        simp [load_step, h1, h2, h3, dupd, eq_comm]

end JoinStar

/-- C8.  Build-phase duplicate keys: each of the three tables is a
plain dict store, so after the build every key maps to the row of the
last record, in input order, that carried that key (formalized by the
accumulating fold on the right-hand sides: later carriers overwrite
earlier ones). -/
theorem c8_last_writer_wins (rows : List JoinStar.Row) :
    (∀ k : Int, (JoinStar.load_primary_maps rows).by_id k =
      rows.foldl (fun acc r =>
        if JoinStar.safe_int (JoinStar.csvGet r "systemId") = some k
        then some r else acc) none) ∧
    (∀ k : Int, (JoinStar.load_primary_maps rows).by_id64 k =
      rows.foldl (fun acc r =>
        if JoinStar.safe_int (JoinStar.csvGet r "systemId64") = some k
        then some r else acc) none) ∧
    (∀ k : String, (JoinStar.load_primary_maps rows).by_name k =
      rows.foldl (fun acc r =>
        if JoinStar.norm_name (JoinStar.csvGet r "systemName") ≠ "" ∧
            JoinStar.norm_name (JoinStar.csvGet r "systemName") = k
        then some r else acc) none) := by
  have haux1 : ∀ (rs : List JoinStar.Row) (m : JoinStar.Maps) (k : Int),
      (rs.foldl JoinStar.load_step m).by_id k =
        rs.foldl (fun acc r =>
          if JoinStar.safe_int (JoinStar.csvGet r "systemId") = some k
          then some r else acc) (m.by_id k) := by
    intro rs
    induction rs with
    | nil => intro m k; rfl
    | cons r rs ih =>
      intro m k
      rw [List.foldl_cons, List.foldl_cons, ih, JoinStar.load_step_by_id]
  have haux2 : ∀ (rs : List JoinStar.Row) (m : JoinStar.Maps) (k : Int),
      (rs.foldl JoinStar.load_step m).by_id64 k =
        rs.foldl (fun acc r =>
          if JoinStar.safe_int (JoinStar.csvGet r "systemId64") = some k
          then some r else acc) (m.by_id64 k) := by
    intro rs
    induction rs with
    | nil => intro m k; rfl
    | cons r rs ih =>
      intro m k
      rw [List.foldl_cons, List.foldl_cons, ih, JoinStar.load_step_by_id64]
  have haux3 : ∀ (rs : List JoinStar.Row) (m : JoinStar.Maps) (k : String),
      (rs.foldl JoinStar.load_step m).by_name k =
        rs.foldl (fun acc r =>
          if JoinStar.norm_name (JoinStar.csvGet r "systemName") ≠ "" ∧
              JoinStar.norm_name (JoinStar.csvGet r "systemName") = k
          then some r else acc) (m.by_name k) := by
    intro rs
    induction rs with
    | nil => intro m k; rfl
    | cons r rs ih =>
      intro m k
      rw [List.foldl_cons, List.foldl_cons, ih, JoinStar.load_step_by_name]
  exact ⟨fun k => haux1 rows _ k, fun k => haux2 rows _ k,
    fun k => haux3 rows _ k⟩

/-! ### Claim C6: system_key priority and the none-key drop -/

namespace Extract

theorem extract_step_none_free {st : ExState} (rec : PyDict)
    (h : ∀ v, st.primary_by_system ("none", v) = none) :
    ∀ v, (extract_step st rec).primary_by_system ("none", v) = none := by
  intro v
  by_cases hs : isStar rec
  · by_cases hk : (system_key rec).1 = "none"
    · simp [extract_step, hs, hk, h v]
    · have hne : (("none", v) : String × KV) ≠ system_key rec := by
        intro he; apply hk; rw [← he]
      by_cases hint : is_interesting_grav (norm (pyGet rec "subType")) <;>
        simp [extract_step, hs, hk, hint, dupd, hne, h v]
  · simp [extract_step, hs, h v]

theorem extract_loop_none_free :
    ∀ (recs : List PyDict) (limit scanned : Nat) (st : ExState),
      (∀ v, st.primary_by_system ("none", v) = none) →
      ∀ v, (extract_loop limit recs scanned st).primary_by_system
        ("none", v) = none := by
  intro recs
  induction recs with
  | nil => intro limit scanned st h v; exact h v
  | cons rec rs ih =>
    intro limit scanned st h v
    rw [extract_loop]
    by_cases hb : limit ≠ 0 ∧ scanned + 1 > limit
    · simp only [if_pos hb]; exact h v
    · simp only [if_neg hb]
      exact ih limit (scanned + 1) (extract_step st rec)
        (extract_step_none_free rec h) v

end Extract

/-- C6.  `system_key` tries the numeric identifiers first — `systemId`,
then `systemId64` — and falls back to the name string only when both
are absent or unparseable; a record producing none of the three keys
gets the `("none", "")` tag and is skipped whole by the build loop (no
exception, no state change), so no `("none", _)` key is ever inserted
into the table. -/
theorem c6_system_key_priority :
    (∀ (rec : PyDict) (sid : Int),
      Extract.as_int (pyGet rec "systemId") = some sid →
      Extract.system_key rec = ("id", .kInt sid)) ∧
    (∀ (rec : PyDict) (sid64 : Int),
      Extract.as_int (pyGet rec "systemId") = none →
      Extract.as_int (pyGet rec "systemId64") = some sid64 →
      Extract.system_key rec = ("id64", .kInt sid64)) ∧
    (∀ rec : PyDict,
      Extract.as_int (pyGet rec "systemId") = none →
      Extract.as_int (pyGet rec "systemId64") = none →
      Extract.norm (pyGet rec "systemName") ≠ "" →
      Extract.system_key rec =
        ("name", .kStr (Extract.norm (pyGet rec "systemName")))) ∧
    (∀ rec : PyDict,
      Extract.as_int (pyGet rec "systemId") = none →
      Extract.as_int (pyGet rec "systemId64") = none →
      Extract.norm (pyGet rec "systemName") = "" →
      Extract.system_key rec = ("none", .kStr "")) ∧
    (∀ (st : Extract.ExState) (rec : PyDict),
      (Extract.system_key rec).1 = "none" →
      Extract.extract_step st rec = st) ∧
    (∀ (recs : List PyDict) (limit : Nat) (v : Extract.KV),
      (Extract.buildPrimary recs limit).primary_by_system
        ("none", v) = none) := by
  refine ⟨?_, ?_, ?_, ?_, ?_, ?_⟩
  · intro rec sid h; simp [Extract.system_key, h]
  · intro rec sid64 h1 h2; simp [Extract.system_key, h1, h2]
  · intro rec h1 h2 h3; simp [Extract.system_key, h1, h2, h3]
  · intro rec h1 h2 h3; simp [Extract.system_key, h1, h2, h3]
  · intro st rec hk
    by_cases hs : Extract.isStar rec <;>
      simp [Extract.extract_step, hs, hk]
  · intro recs limit v
    exact Extract.extract_loop_none_free recs limit 0 _ (fun _ => rfl) v

theorem c6_system_key_priority_witness :
    Extract.system_key
      [("systemId", PyVal.vInt 7), ("systemName", PyVal.vStr "Polaris")] =
      ("id", .kInt 7) ∧
    Extract.system_key [("type", PyVal.vStr "Star")] = ("none", .kStr "") ∧
    Extract.extract_step (Extract.ExState.mk (fun _ => none) [])
      [("type", PyVal.vStr "Star")] = Extract.ExState.mk (fun _ => none) [] ∧
    (Extract.buildPrimary [[("type", PyVal.vStr "Star")]] 0).primary_by_system
      ("none", .kStr "") = none :=
  ⟨c6_system_key_priority.1 _ 7 rfl,
   c6_system_key_priority.2.2.2.1 _ rfl rfl rfl,
   c6_system_key_priority.2.2.2.2.1 _ _ rfl,
   c6_system_key_priority.2.2.2.2.2 _ 0 _⟩

/-! ### Claim C7: the caller-side debug cap -/

namespace GravSrc

theorem grav_loop_cap (need : Int → Bool) (limit : Nat) (hl : limit ≠ 0) :
    ∀ (recs : List PyDict) (scanned : Nat) (st : GravState),
      grav_loop need limit recs scanned st =
        grav_loop need 0 (recs.take (limit - scanned)) scanned st := by
  intro recs
  induction recs with
  | nil => intro scanned st; rw [List.take_nil]; rfl
  | cons rec rs ih =>
    intro scanned st
    by_cases hb : scanned + 1 > limit
    · have h0 : limit - scanned = 0 := by omega
      rw [h0]
      simp only [List.take_zero, grav_loop]
      rw [if_pos (And.intro hl hb)]
    · have hsucc : limit - scanned = (limit - (scanned + 1)) + 1 := by omega
      rw [hsucc, List.take_succ_cons]
      have hc1 : ¬ (limit ≠ 0 ∧ scanned + 1 > limit) := fun h => hb h.2
      have hc2 : ¬ ((0 : Nat) ≠ 0 ∧ scanned + 1 > 0) := fun h => h.1 rfl
      simp only [grav_loop, if_neg hc1, if_neg hc2]
      rcases hs : grav_step need st rec with e | st' <;> simp only [hs]
      exact ih (scanned + 1) st'

end GravSrc

namespace Extract

theorem extract_loop_cap (limit : Nat) (hl : limit ≠ 0) :
    ∀ (recs : List PyDict) (scanned : Nat) (st : ExState),
      extract_loop limit recs scanned st =
        extract_loop 0 (recs.take (limit - scanned)) scanned st := by
  intro recs
  induction recs with
  | nil => intro scanned st; rw [List.take_nil]; rfl
  | cons rec rs ih =>
    intro scanned st
    by_cases hb : scanned + 1 > limit
    · have h0 : limit - scanned = 0 := by omega
      rw [h0]
      simp only [List.take_zero, extract_loop]
      rw [if_pos (And.intro hl hb)]
    · have hsucc : limit - scanned = (limit - (scanned + 1)) + 1 := by omega
      rw [hsucc, List.take_succ_cons]
      have hc1 : ¬ (limit ≠ 0 ∧ scanned + 1 > limit) := fun h => hb h.2
      have hc2 : ¬ ((0 : Nat) ≠ 0 ∧ scanned + 1 > 0) := fun h => h.1 rfl
      simp only [extract_loop, if_neg hc1, if_neg hc2]
      exact ih (scanned + 1) (extract_step st rec)

end Extract

/-- C7.  The caller-supplied cap (`--limit_systems` in
`build_gravity_sources.main`, `--limit` in
`extract_primary_star_and_grav.main`): for every cap N >= 1 the capped
run equals the uncapped run over exactly the first N records — the
first N records are processed unchanged and nothing after the N-th is
processed (including on inputs with fewer than N records, where the cap
never fires). -/
theorem c7_cap_processes_first_n :
    (∀ (need : Int → Bool) (limit : Nat) (recs : List PyDict)
        (st : GravSrc.GravState), 1 ≤ limit →
      GravSrc.grav_loop need limit recs 0 st =
        GravSrc.grav_loop need 0 (recs.take limit) 0 st) ∧
    (∀ (limit : Nat) (recs : List PyDict) (st : Extract.ExState),
      1 ≤ limit →
      Extract.extract_loop limit recs 0 st =
        Extract.extract_loop 0 (recs.take limit) 0 st) := by
  constructor
  · intro need limit recs st hl
    have := GravSrc.grav_loop_cap need limit (by omega) recs 0 st
    simpa using this
  · intro limit recs st hl
    have := Extract.extract_loop_cap limit (by omega) recs 0 st
    simpa using this

theorem c7_cap_processes_first_n_witness :
    GravSrc.grav_loop (fun i => i == 5) 1
        [[("id", PyVal.vInt 5)], [("id", PyVal.vInt 6)]] 0
        (GravSrc.GravState.mk (fun _ => none) 0) =
      GravSrc.grav_loop (fun i => i == 5) 0
        ([[("id", PyVal.vInt 5)], [("id", PyVal.vInt 6)]].take 1) 0
        (GravSrc.GravState.mk (fun _ => none) 0) ∧
    Extract.extract_loop 1 [[("type", PyVal.vStr "Star")]] 0
        (Extract.ExState.mk (fun _ => none) []) =
      Extract.extract_loop 0 ([[("type", PyVal.vStr "Star")]].take 1) 0
        (Extract.ExState.mk (fun _ => none) []) :=
  ⟨c7_cap_processes_first_n.1 _ 1 _ _ (by decide),
   c7_cap_processes_first_n.2 1 _ _ (by decide)⟩

/-! ### Claim C9: normalize_row rejection semantics -/

/-- C9, counterexample.  A record with a truthy non-dict `coords` value
(here the integer 3, so every coordinate is absent) makes
`coords.get("x")` raise `AttributeError` — the record is not rejected
with `None` as the claim states for absent coordinates. -/
theorem c9_normalize_row_counterexample :
    Omph.normalize_row [("name", PyVal.vStr "A"), ("coords", PyVal.vInt 3)] =
      .error .attributeError ∧
    (Except.error PyErr.attributeError ≠
      (Except.ok none : Except PyErr (Option Omph.OmphRow))) :=
  ⟨rfl, fun h => Except.noConfusion h⟩

namespace Omph

theorem normalize_row_safe_shapes :
    ∀ system : PyDict, row_safe system = true →
      ∃ res, normalize_row system = .ok res := by
  intro system hsafe
  simp only [row_safe, Bool.and_eq_true] at hsafe
  obtain ⟨⟨hA, hB⟩, hC⟩ := hsafe
  rcases hn : pyOr (pyGet system "name") (.vStr "")
      with _ | b | n | q | s | l | kvs <;>
    rw [hn] at hA <;> try simp at hA
  rcases hc : dictOf (pyOr (pyGet system "coords") (.vDict []))
      with _ | coords <;> rw [hc] at hB
  · simp at hB
  rcases hi : dictOf (pyOr (pyGet system "information") (.vDict []))
      with _ | info <;> rw [hi] at hC
  · simp at hC
  simp only [Bool.and_eq_true] at hC
  obtain ⟨ha, hg⟩ := hC
  rcases hav : pyOr (dget info "allegiance") (.vStr "")
      with _ | _ | _ | _ | aS | _ | _ <;> rw [hav] at ha <;> try simp at ha
  rcases hgv : pyOr (dget info "government") (.vStr "")
      with _ | _ | _ | _ | gS | _ | _ <;> rw [hgv] at hg <;> try simp at hg
  by_cases hname : pyStrip s = ""
  · exact ⟨none, by simp [normalize_row, hn, strAttr, hname]⟩
  · rcases hx : pyFloat (dget coords "x") with _ | xv
    · exact ⟨none, by simp [normalize_row, hn, strAttr, hname, hc, hx]⟩
    · rcases hy : pyFloat (dget coords "y") with _ | yv
      · exact ⟨none, by simp [normalize_row, hn, strAttr, hname, hc, hx, hy]⟩
      · rcases hz : pyFloat (dget coords "z") with _ | zv
        · exact ⟨none,
            by simp [normalize_row, hn, strAttr, hname, hc, hx, hy, hz]⟩
        · exact ⟨some (OmphRow.mk (pyStrip s) xv yv zv
              (xv * xv + yv * yv + zv * zv) (pyStrip aS) (pyStrip gS)
              (pyStr (pyOr (dget info "population") (.vStr "")))),
            by simp [normalize_row, hn, strAttr, hname, hc, hx, hy, hz, hi,
              hav, hgv]⟩

theorem normalize_row_rejects :
    ∀ (system : PyDict) (coords : PyDict), row_safe system = true →
      dictOf (pyOr (pyGet system "coords") (.vDict [])) = some coords →
      (pyFloat (dget coords "x") = none ∨ pyFloat (dget coords "y") = none ∨
        pyFloat (dget coords "z") = none) →
      normalize_row system = .ok none := by
  intro system coords hsafe hc htr
  simp only [row_safe, Bool.and_eq_true] at hsafe
  obtain ⟨⟨hA, -⟩, -⟩ := hsafe
  rcases hn : pyOr (pyGet system "name") (.vStr "")
      with _ | b | n | q | s | l | kvs <;>
    rw [hn] at hA <;> try simp at hA
  by_cases hname : pyStrip s = ""
  · simp [normalize_row, hn, strAttr, hname]
  · rcases hx : pyFloat (dget coords "x") with _ | xv
    · simp [normalize_row, hn, strAttr, hname, hc, hx]
    · rcases hy : pyFloat (dget coords "y") with _ | yv
      · simp [normalize_row, hn, strAttr, hname, hc, hx, hy]
      · rcases hz : pyFloat (dget coords "z") with _ | zv
        · simp [normalize_row, hn, strAttr, hname, hc, hx, hy, hz]
        · rcases htr with h | h | h
          · rw [hx] at h; simp at h
          · rw [hy] at h; simp at h
          · rw [hz] at h; simp at h

theorem normalize_row_rejects_empty_name :
    ∀ (system : PyDict) (s : String),
      pyOr (pyGet system "name") (.vStr "") = .vStr s → pyStrip s = "" →
      normalize_row system = .ok none := by
  intro system s hn hempty
  simp [normalize_row, hn, strAttr, hempty]

theorem omph_loop_total :
    ∀ (recs : List PyDict) (total kept : Nat) (rows0 : List OmphRow),
      (∀ r ∈ recs, row_safe r = true) →
      ∃ rows, omph_loop recs total kept rows0 =
        .ok (total + recs.length, kept + rows.length, rows0 ++ rows) := by
  intro recs
  induction recs with
  | nil => intro total kept rows0 _; exact ⟨[], by simp [omph_loop]⟩
  | cons r rs ih =>
    intro total kept rows0 hall
    obtain ⟨res, hres⟩ := normalize_row_safe_shapes r (hall r (by simp))
    rcases res with _ | row
    · obtain ⟨rows, hrows⟩ := ih (total + 1) kept rows0
        (fun x hx => hall x (by simp [hx]))
      refine ⟨rows, ?_⟩
      have he : total + 1 + rs.length = total + (r :: rs).length := by
        simp [List.length_cons]; omega
      rw [he] at hrows
      rw [omph_loop]
      simp only [hres]
      exact hrows
    · obtain ⟨rows, hrows⟩ := ih (total + 1) (kept + 1) (rows0 ++ [row])
        (fun x hx => hall x (by simp [hx]))
      refine ⟨row :: rows, ?_⟩
      have he : total + 1 + rs.length = total + (r :: rs).length := by
        simp [List.length_cons]; omega
      have hk : kept + 1 + rows.length = kept + (row :: rows).length := by
        simp [List.length_cons]; omega
      rw [he, hk] at hrows
      rw [omph_loop]
      simp only [hres]
      rw [hrows]
      simp [List.append_assoc]

end Omph

/-- C9, amended.  `normalize_row` rejects by returning `None` (never by
raising) on an empty name or a missing/uncoercible coordinate, and a
rejected record never stops the enclosing loop (every record is
scanned), PROVIDED the record's `name` value (after `or ""`) is a
string and its `coords` / `information` values (after the `or`
dict-defaults) are dicts with string-or-falsy `allegiance` and
`government` fields; outside that proviso the source raises
`AttributeError` (see the counterexample).  In the embedding
`normalize_row` is a pure function of the single record. -/
theorem c9_reject_not_raise_amended :
    (∀ system : PyDict, Omph.row_safe system = true →
      ∃ res, Omph.normalize_row system = .ok res) ∧
    (∀ (system : PyDict) (s : String),
      pyOr (pyGet system "name") (.vStr "") = .vStr s → pyStrip s = "" →
      Omph.normalize_row system = .ok none) ∧
    (∀ (system : PyDict) (coords : PyDict), Omph.row_safe system = true →
      dictOf (pyOr (pyGet system "coords") (.vDict [])) = some coords →
      (pyFloat (dget coords "x") = none ∨ pyFloat (dget coords "y") = none ∨
        pyFloat (dget coords "z") = none) →
      Omph.normalize_row system = .ok none) ∧
    (∀ recs : List PyDict, (∀ r ∈ recs, Omph.row_safe r = true) →
      ∃ rows, Omph.build_omphalos_systems recs =
        .ok (recs.length, rows.length, rows)) := by
  refine ⟨Omph.normalize_row_safe_shapes, Omph.normalize_row_rejects_empty_name,
    Omph.normalize_row_rejects, ?_⟩
  intro recs hall
  obtain ⟨rows, hrows⟩ := Omph.omph_loop_total recs 0 0 [] hall
  exact ⟨rows, by simpa using hrows⟩

theorem c9_reject_not_raise_amended_witness :
    Omph.row_safe [("name", PyVal.vStr "A")] = true ∧
    Omph.normalize_row ([] : PyDict) = .ok none ∧
    Omph.normalize_row [("name", PyVal.vStr "A")] = .ok none :=
  ⟨rfl,
    c9_reject_not_raise_amended.2.1 [] "" rfl rfl,
    c9_reject_not_raise_amended.2.2.1 [("name", PyVal.vStr "A")] [] rfl rfl
      (Or.inl rfl)⟩

end UnifiedHunt
